import Mathlib

/-!
Verification of the two-pass streaming staging engine (src/stage.cpp) of the
`ldp` loader.  JSON values are embedded as a deep inductive type mirroring the
rapidjson document model used by the code: numbers keep rapidjson's
integer-flag distinction (`IsInt/IsUint/IsInt64/IsUint64` versus double), and
object members are an ordered list of (name, value) pairs, as rapidjson stores
them.  Doubles are modelled as rationals: every IEEE-754 double is a rational,
and all comparisons performed by the code (`d > 10000000000.0`) are exact on
doubles, so the rational model is faithful on the inputs considered.
-/

set_option linter.unusedVariables false
set_option linter.unnecessarySeqFocus false

namespace Ldp

/-- A rapidjson JSON value.  `intNum` corresponds to a number parsed with one
of the integer flags (`kIntFlag`/`kUintFlag`/`kInt64Flag`/`kUint64Flag`);
`floatNum` to a number carrying only `kDoubleFlag`. -/
inductive Json : Type where
  | null : Json
  | boolean : Bool → Json
  | intNum : Int → Json
  | floatNum : ℚ → Json
  | str : String → Json
  | arr : List Json → Json
  | obj : List (String × Json) → Json
deriving Repr, Inhabited

/-- Model of `NameComparator::operator()` (stage.cpp lines 32-43): the member named
"id" compares before every other member; all other pairs are ordered by
`strcmp`.  `strcmp` on (NUL-free, valid UTF-8) C strings is byte-wise
lexicographic order, which coincides with Lean's code-point order `<` on
`String`. -/
def nameLt (s1 s2 : String) : Bool :=
  if s1 = "id" then true
  else if s2 = "id" then false
  else decide (s1 < s2)

/-- Sorted insertion of one member, the building block used to model
`std::sort(node->MemberBegin(), node->MemberEnd(), NameComparator())`
(stage.cpp line 109).  `std::sort` guarantees only that the output is a
permutation of the input with no inversions under the comparator; when the
comparator is a strict weak ordering on the given elements that output is
produced by insertion sort as well, so we model the call by insertion sort. -/
def insertMember (m : String × Json) : List (String × Json) → List (String × Json)
  | [] => [m]
  | b :: l => if nameLt b.1 m.1 then b :: insertMember m l else m :: b :: l

/-- Model of the `std::sort` call with `NameComparator` (stage.cpp line 109). -/
def sortMembers : List (String × Json) → List (String × Json)
  | [] => []
  | m :: l => insertMember m (sortMembers l)

theorem insertMember_perm (m : String × Json) (l : List (String × Json)) :
    List.Perm (insertMember m l) (m :: l) := by
  induction l with
  | nil => simp [insertMember]
  | cons b l ih =>
    simp only [insertMember]
    split
    · exact (ih.cons b).trans (List.Perm.swap m b l)
    · exact List.Perm.refl _

theorem sortMembers_perm (l : List (String × Json)) :
    List.Perm (sortMembers l) l := by
  induction l with
  | nil => simp [sortMembers]
  | cons m l ih =>
    exact (insertMember_perm m (sortMembers l)).trans (ih.cons m)

theorem sizeOf_insertMember (m : String × Json) (l : List (String × Json)) :
    sizeOf (insertMember m l) = 1 + sizeOf m + sizeOf l := by
  induction l with
  | nil => simp [insertMember]
  | cons b l ih =>
    simp only [insertMember]
    split
    all_goals simp only [List.cons.sizeOf_spec, ih]
    all_goals omega

theorem sizeOf_sortMembers (l : List (String × Json)) :
    sizeOf (sortMembers l) = sizeOf l := by
  induction l with
  | nil => rfl
  | cons m l ih =>
    simp only [sortMembers, sizeOf_insertMember, List.cons.sizeOf_spec, ih]
    try omega

mutual
/-- The reordering performed by `processJSONRecord` (stage.cpp lines 52-122)
on a record tree, with statistics collection and anonymization stripped out
(`anonymizeTable` is `false` in both passes, stage.cpp lines 331-337, so the
only mutation is the member sort).  Each object's members are sorted with
`NameComparator` and then each member value is processed recursively; array
elements are processed in order without reordering; scalars are unchanged. -/
def canonicalize : Json → Json
  | .null => .null
  | .boolean b => .boolean b
  | .intNum i => .intNum i
  | .floatNum q => .floatNum q
  | .str s => .str s
  | .arr xs => .arr (canonElems xs)
  | .obj ms => .obj (canonMembers (sortMembers ms))
termination_by j => sizeOf j
decreasing_by
  all_goals simp only [Json.arr.sizeOf_spec, Json.obj.sizeOf_spec, sizeOf_sortMembers]
  all_goals omega

/-- Recursive processing of the elements of a JSON array, in order. -/
def canonElems : List Json → List Json
  | [] => []
  | x :: rest => canonicalize x :: canonElems rest
termination_by xs => sizeOf xs
decreasing_by
  all_goals simp only [List.cons.sizeOf_spec]
  all_goals omega

/-- Recursive processing of the (already sorted) members of a JSON object. -/
def canonMembers : List (String × Json) → List (String × Json)
  | [] => []
  | (n, v) :: rest => (n, canonicalize v) :: canonMembers rest
termination_by ms => sizeOf ms
decreasing_by
  all_goals simp only [List.cons.sizeOf_spec, Prod.mk.sizeOf_spec]
  all_goals omega
end

theorem canonElems_eq_map (xs : List Json) : canonElems xs = xs.map canonicalize := by
  induction xs with
  | nil => simp [canonElems]
  | cons x rest ih => simp [canonElems, ih]

theorem canonMembers_eq_map (l : List (String × Json)) :
    canonMembers l = l.map (fun m => (m.1, canonicalize m.2)) := by
  induction l with
  | nil => simp [canonMembers]
  | cons m rest ih => cases m; simp [canonMembers, ih]

theorem canonMembers_map_fst (l : List (String × Json)) :
    (canonMembers l).map Prod.fst = l.map Prod.fst := by
  simp [canonMembers_eq_map, Function.comp]

/-! ### Properties of the `NameComparator` order -/

theorem nameLt_id_left (b : String) : nameLt "id" b = true := by simp [nameLt]

theorem nameLt_false_elim {a b : String} (h : nameLt a b = false) :
    a ≠ "id" ∧ (b = "id" ∨ ¬ a < b) := by
  by_cases ha : a = "id" <;> by_cases hb : b = "id" <;>
    simp [nameLt, ha, hb] at h ⊢ <;> simp [h]

/-- Negative transitivity of the comparator: it is a total preorder
(id-first, then `strcmp`), so "not below" is transitive. -/
theorem nameLt_negTrans {a b c : String} (h1 : nameLt a b = false)
    (h2 : nameLt b c = false) : nameLt a c = false := by
  obtain ⟨ha, hab⟩ := nameLt_false_elim h1
  obtain ⟨hb, hbc⟩ := nameLt_false_elim h2
  rcases hab with hb' | hab
  · exact absurd hb' hb
  · rcases hbc with hc | hbc
    · simp [nameLt, ha, hc]
    · have : ¬ a < c := fun hlt => by
        rcases lt_trichotomy b c with h | h | h
        · exact hbc h
        · exact hab (h ▸ hlt)
        · exact hab (lt_trans hlt h)
      by_cases hc : c = "id" <;> simp [nameLt, ha, hc, this]

/-- Asymmetry of the comparator away from the degenerate case of two members
both named "id" (on which `NameComparator` is not a strict weak ordering and
the `std::sort` call would have undefined behavior). -/
theorem nameLt_asymm {a b : String} (hne : ¬ (a = "id" ∧ b = "id"))
    (h : nameLt a b = true) : nameLt b a = false := by
  by_cases ha : a = "id"
  · by_cases hb : b = "id"
    · exact absurd ⟨ha, hb⟩ hne
    · simp [nameLt, ha, hb]
  · by_cases hb : b = "id"
    · simp [nameLt, ha, hb] at h
    · simp only [nameLt, ha, hb, if_false, decide_eq_true_eq] at h
      simp only [nameLt, hb, ha, if_false, decide_eq_false_iff_not]
      exact not_lt.mpr (le_of_lt h)

theorem nameLt_both_false {a b : String} (h1 : nameLt a b = false)
    (h2 : nameLt b a = false) : a = b := by
  obtain ⟨ha, hab⟩ := nameLt_false_elim h1
  obtain ⟨hb, hba⟩ := nameLt_false_elim h2
  rcases hab with h | hab
  · exact absurd h hb
  · rcases hba with h | hba
    · exact absurd h ha
    · exact le_antisymm (not_lt.mp hba) (not_lt.mp hab)

/-! ### Sortedness of `sortMembers` -/

/-- The postcondition of `std::sort` with `NameComparator`: no pair of
members in the list is inverted with respect to the comparator. -/
def MembersSorted (l : List (String × Json)) : Prop :=
  List.Pairwise (fun a b => nameLt b.1 a.1 = false) l

theorem mem_insertMember {x m : String × Json} {l : List (String × Json)}
    (h : x ∈ insertMember m l) : x = m ∨ x ∈ l := by
  have := (insertMember_perm m l).mem_iff.mp h
  simpa using this

theorem sorted_insertMember {m : String × Json} {l : List (String × Json)}
    (hid : ∀ x ∈ l, ¬ (m.1 = "id" ∧ x.1 = "id"))
    (hs : MembersSorted l) : MembersSorted (insertMember m l) := by
  induction l with
  | nil => simp [insertMember, MembersSorted]
  | cons b rest ih =>
    simp only [insertMember]
    rcases hs with - | ⟨hb, hrest⟩
    split
    · next hlt =>
      refine List.Pairwise.cons ?_ (ih (fun x hx => hid x (List.mem_cons_of_mem b hx)) hrest)
      intro x hx
      rcases mem_insertMember hx with rfl | hx
      · exact nameLt_asymm (fun ⟨h1, h2⟩ =>
          hid b (List.mem_cons_self b rest) ⟨h2, h1⟩) hlt
      · exact hb x hx
    · next hlt =>
      refine List.Pairwise.cons ?_ (List.Pairwise.cons hb hrest)
      intro x hx
      have hbm : nameLt b.1 m.1 = false := by
        revert hlt; cases nameLt b.1 m.1 <;> simp
      rcases List.mem_cons.mp hx with rfl | hx
      · exact hbm
      · exact nameLt_negTrans (hb x hx) hbm

theorem sorted_sortMembers {l : List (String × Json)}
    (hnd : (l.map Prod.fst).Nodup) : MembersSorted (sortMembers l) := by
  induction l with
  | nil => simp [sortMembers, MembersSorted]
  | cons m rest ih =>
    simp only [List.map_cons, List.nodup_cons] at hnd
    refine sorted_insertMember ?_ (ih hnd.2)
    intro x hx ⟨h1, h2⟩
    have hxmem : x ∈ rest := (sortMembers_perm rest).mem_iff.mp hx
    exact hnd.1 (h1 ▸ h2 ▸ List.mem_map_of_mem Prod.fst hxmem)

theorem sortMembers_eq_self {l : List (String × Json)}
    (hs : MembersSorted l) : sortMembers l = l := by
  induction l with
  | nil => rfl
  | cons m rest ih =>
    rcases hs with - | ⟨hm, hrest⟩
    simp only [sortMembers, ih hrest]
    cases rest with
    | nil => rfl
    | cons b rest' =>
      simp only [insertMember, hm b (List.mem_cons_self b rest'), ite_false,
        Bool.false_eq_true, if_false]

/-! ### Membership induction for `Json` -/

theorem Json.inductionOn {P : Json → Prop}
    (hnull : P .null) (hbool : ∀ b, P (.boolean b))
    (hint : ∀ i, P (.intNum i)) (hfloat : ∀ q, P (.floatNum q))
    (hstr : ∀ s, P (.str s))
    (harr : ∀ xs, (∀ x ∈ xs, P x) → P (.arr xs))
    (hobj : ∀ ms, (∀ m ∈ ms, P m.2) → P (.obj ms)) :
    ∀ j, P j := by
  have key : ∀ n (j : Json), sizeOf j ≤ n → P j := by
    intro n
    induction n with
    | zero =>
      intro j h
      exfalso; cases j <;> simp at h
    | succ n ih =>
      intro j h
      cases j with
      | null => exact hnull
      | boolean b => exact hbool b
      | intNum i => exact hint i
      | floatNum q => exact hfloat q
      | str s => exact hstr s
      | arr xs =>
        refine harr xs (fun x hx => ih x ?_)
        have := List.sizeOf_lt_of_mem hx
        simp only [Json.arr.sizeOf_spec] at h
        omega
      | obj ms =>
        refine hobj ms (fun m hm => ih m.2 ?_)
        have h1 := List.sizeOf_lt_of_mem hm
        have h2 : sizeOf m.2 < sizeOf m := by
          cases m; simp only [Prod.mk.sizeOf_spec]; omega
        simp only [Json.obj.sizeOf_spec] at h
        omega
  exact fun j => key (sizeOf j) j le_rfl

/-! ### Well-formed and canonical record trees -/

/-- A well-formed record tree: every object has pairwise-distinct member
names.  Records with duplicate member names are degenerate (JSON objects are
maps; moreover two members both named "id" would make `NameComparator` fail
to be a strict weak ordering, making the `std::sort` call undefined). -/
inductive Wf : Json → Prop where
  | null : Wf .null
  | boolean (b : Bool) : Wf (.boolean b)
  | intNum (i : Int) : Wf (.intNum i)
  | floatNum (q : ℚ) : Wf (.floatNum q)
  | str (s : String) : Wf (.str s)
  | arr {xs : List Json} : (∀ x ∈ xs, Wf x) → Wf (.arr xs)
  | obj {ms : List (String × Json)} : (ms.map Prod.fst).Nodup →
      (∀ m ∈ ms, Wf m.2) → Wf (.obj ms)

/-- A canonical record tree: every object's member list carries no inversion
under `NameComparator`. -/
inductive Canonical : Json → Prop where
  | null : Canonical .null
  | boolean (b : Bool) : Canonical (.boolean b)
  | intNum (i : Int) : Canonical (.intNum i)
  | floatNum (q : ℚ) : Canonical (.floatNum q)
  | str (s : String) : Canonical (.str s)
  | arr {xs : List Json} : (∀ x ∈ xs, Canonical x) → Canonical (.arr xs)
  | obj {ms : List (String × Json)} : MembersSorted ms →
      (∀ m ∈ ms, Canonical m.2) → Canonical (.obj ms)

theorem membersSorted_canonMembers {l : List (String × Json)}
    (h : MembersSorted l) : MembersSorted (canonMembers l) := by
  rw [canonMembers_eq_map]
  unfold MembersSorted at h ⊢
  rw [List.pairwise_map]
  exact h.imp (fun hab => hab)

theorem wf_canonicalize {j : Json} (h : Wf j) : Wf (canonicalize j) := by
  induction h with
  | null => rw [canonicalize]; exact Wf.null
  | boolean b => rw [canonicalize]; exact Wf.boolean b
  | intNum i => rw [canonicalize]; exact Wf.intNum i
  | floatNum q => rw [canonicalize]; exact Wf.floatNum q
  | str s => rw [canonicalize]; exact Wf.str s
  | arr hxs ih =>
    rw [canonicalize, canonElems_eq_map]
    exact Wf.arr (fun x hx => by
      obtain ⟨y, hy, rfl⟩ := List.mem_map.mp hx
      exact ih y hy)
  | @obj ms hnd hms ih =>
    rw [canonicalize, canonMembers_eq_map]
    refine Wf.obj ?_ ?_
    · have : ((sortMembers ms).map (fun m => (m.1, canonicalize m.2))).map Prod.fst
          = (sortMembers ms).map Prod.fst := by
        simp [Function.comp]
      rw [this]
      exact ((sortMembers_perm ms).map Prod.fst).nodup_iff.mpr hnd
    · intro m hm
      obtain ⟨y, hy, rfl⟩ := List.mem_map.mp hm
      exact ih y ((sortMembers_perm ms).mem_iff.mp hy)

theorem canonical_canonicalize {j : Json} (h : Wf j) : Canonical (canonicalize j) := by
  induction h with
  | null => rw [canonicalize]; exact Canonical.null
  | boolean b => rw [canonicalize]; exact Canonical.boolean b
  | intNum i => rw [canonicalize]; exact Canonical.intNum i
  | floatNum q => rw [canonicalize]; exact Canonical.floatNum q
  | str s => rw [canonicalize]; exact Canonical.str s
  | arr hxs ih =>
    rw [canonicalize, canonElems_eq_map]
    exact Canonical.arr (fun x hx => by
      obtain ⟨y, hy, rfl⟩ := List.mem_map.mp hx
      exact ih y hy)
  | obj hnd hms ih =>
    rw [canonicalize]
    refine Canonical.obj (membersSorted_canonMembers (sorted_sortMembers hnd)) ?_
    intro m hm
    rw [canonMembers_eq_map] at hm
    obtain ⟨y, hy, rfl⟩ := List.mem_map.mp hm
    exact ih y ((sortMembers_perm _).mem_iff.mp hy)

theorem canonicalize_eq_self {j : Json} (h : Canonical j) : canonicalize j = j := by
  induction h with
  | null => rw [canonicalize]
  | boolean b => rw [canonicalize]
  | intNum i => rw [canonicalize]
  | floatNum q => rw [canonicalize]
  | str s => rw [canonicalize]
  | @arr xs hxs ih =>
    rw [canonicalize, canonElems_eq_map]
    congr 1
    have : xs.map canonicalize = xs.map id := List.map_congr_left (fun x hx => ih x hx)
    rw [this, List.map_id]
  | @obj ms hs hms ih =>
    rw [canonicalize, sortMembers_eq_self hs, canonMembers_eq_map]
    congr 1
    have : ms.map (fun m => (m.1, canonicalize m.2)) = ms.map id := by
      apply List.map_congr_left
      intro m hm
      cases m with
      | mk n v =>
        have := ih (n, v) hm
        simp only at this
        simp [this]
    rw [this, List.map_id]

theorem canonicalize_idem {j : Json} (h : Wf j) :
    canonicalize (canonicalize j) = canonicalize j :=
  canonicalize_eq_self (canonical_canonicalize h)

/-! ### The id-first, ascending shape of sorted members -/

theorem sorted_head_id {l : List (String × Json)}
    (hs : MembersSorted l) (hid : "id" ∈ l.map Prod.fst) :
    ∃ v rest, l = ("id", v) :: rest := by
  cases l with
  | nil => simp at hid
  | cons m rest =>
    rcases hs with - | ⟨hm, hrest⟩
    rcases List.mem_map.mp hid with ⟨x, hx, hxid⟩
    rcases List.mem_cons.mp hx with rfl | hx
    · refine ⟨x.2, rest, ?_⟩
      rw [← hxid]
    · have := hm x hx
      rw [hxid, nameLt_id_left] at this
      simp at this

theorem sorted_names_strict {l : List (String × Json)}
    (hs : MembersSorted l) (hnd : (l.map Prod.fst).Nodup)
    (hnoid : "id" ∉ l.map Prod.fst) :
    List.Chain' (· < ·) (l.map Prod.fst) := by
  apply List.Pairwise.chain'
  rw [List.pairwise_map]
  have hnd0 : List.Pairwise (fun a b : String => a ≠ b) (l.map Prod.fst) := hnd
  have hnd' := List.pairwise_map.mp hnd0
  refine (hs.and hnd').imp_of_mem (fun {a b} ha hb hab' => ?_)
  obtain ⟨hab, hne⟩ := hab'
  have haid : a.1 ≠ "id" := fun h => hnoid (h ▸ List.mem_map_of_mem Prod.fst ha)
  obtain ⟨-, h⟩ := nameLt_false_elim hab
  rcases h with h | h
  · exact absurd h haid
  · exact lt_of_le_of_ne (not_lt.mp h) hne

/-! ### Type statistics (`Counts`, the `map<string,Counts>` accumulator) -/

/-- The per-field statistics accumulator `Counts`.  Its fields are exactly the
buckets incremented by `processJSONRecord` and logged by `stageTable`
(stage.cpp lines 696-713).  `map::operator[]` value-initializes a missing
entry, so the default is all-zero. -/
structure Counts where
  string : Nat := 0
  dateTime : Nat := 0
  boolean : Nat := 0
  number : Nat := 0
  integer : Nat := 0
  floating : Nat := 0
  null : Nat := 0
  uuid : Nat := 0
deriving Repr, DecidableEq, Inhabited

/-- Model of `std::map<string,Counts>` embedded as an association list kept strictly
sorted by key, the order in which `std::map` iterates. -/
abbrev Stats := List (String × Counts)

/-- Read access `(*stats)[key]`: the stored value, or a value-initialized
(all-zero) `Counts` when the key is absent. -/
def statsGet (stats : Stats) (key : String) : Counts :=
  match stats.lookup key with
  | some c => c
  | none => {}

/-- Model of `(*stats)[key]` followed by a field increment: updates the entry in
place, inserting a value-initialized entry at its sorted position first when
the key is absent (the behavior of `map::operator[]`). -/
def statsModify (key : String) (f : Counts → Counts) : Stats → Stats
  | [] => [(key, f {})]
  | (k, c) :: rest =>
    if key = k then (k, f c) :: rest
    else if key < k then (key, f {}) :: (k, c) :: rest
    else (k, c) :: statsModify key f rest

/-- The keys of a `std::map` are strictly increasing. -/
def StatsWF (stats : Stats) : Prop :=
  List.Pairwise (fun a b => a.1 < b.1) stats

/-- Modelled from the spec: `isUUID` (util.cpp, whose source is not included
under src/) tests a string for the canonical 8-4-4-4-12 hexadecimal UUID
grouping. -/
def isUUID (s : String) : Bool :=
  s.data.length == 36 &&
  (List.range 36).all (fun i =>
    let c := s.data.getD i ' '
    if i == 8 || i == 13 || i == 18 || i == 23 then c == '-'
    else c.isDigit || ('a' ≤ c && c ≤ 'f') || ('A' ≤ c && c ≤ 'F'))

/-- Model of `looksLikeDateTime` (stage.cpp lines 45-49): `regex_search` with the
anchored pattern `^\d{4}-\d{2}-\d{2}T\d{2}:\d{2}:\d{2}`, i.e. a prefix of
shape YYYY-MM-DDTHH:MM:SS; fractional seconds or a zone suffix may follow and
are not inspected. -/
def looksLikeDateTime (s : String) : Bool :=
  decide (19 ≤ s.data.length) &&
  (List.range 19).all (fun i =>
    let c := s.data.getD i ' '
    if i == 4 || i == 7 then c == '-'
    else if i == 10 then c == 'T'
    else if i == 13 || i == 16 then c == ':'
    else c.isDigit)

/-- Model of `path.c_str() + 1` (stage.cpp line 59 and companions): the statistics key
drops the first byte of the slash-separated path.  The first character of a
non-empty path is always the one-byte '/', so dropping one byte is dropping
one character. -/
def dropFirst (s : String) : String := String.mk (s.data.drop 1)

mutual
/-- Model of `processJSONRecord` (stage.cpp lines 52-122) with statistics: sorts every
object's members with `NameComparator`, recurses into arrays and objects
building the slash-separated path, and when `collectStats` is set classifies
each value encountered at depth 1 into the `Counts` bucket for its field.
The anonymization branches are omitted: `anonymizeTable` is `false` in both
passes (stage.cpp lines 331-337), so `possiblePersonalData` is never
consulted and no value is rewritten.  Returns the processed node and the
updated statistics. -/
def processJSONRecord (collectStats : Bool) (path : String) (depth : Nat)
    (stats : Stats) : Json → Json × Stats
  | .null =>
      (.null,
        if collectStats && depth == 1 then
          statsModify (dropFirst path) (fun c => { c with null := c.null + 1 }) stats
        else stats)
  | .boolean b =>
      (.boolean b,
        if collectStats && depth == 1 then
          statsModify (dropFirst path) (fun c => { c with boolean := c.boolean + 1 }) stats
        else stats)
  | .intNum i =>
      (.intNum i,
        if collectStats && depth == 1 then
          statsModify (dropFirst path) (fun c => { c with integer := c.integer + 1 })
            (statsModify (dropFirst path) (fun c => { c with number := c.number + 1 }) stats)
        else stats)
  | .floatNum q =>
      (.floatNum q,
        if collectStats && depth == 1 then
          statsModify (dropFirst path) (fun c => { c with floating := c.floating + 1 })
            (statsModify (dropFirst path) (fun c => { c with number := c.number + 1 }) stats)
        else stats)
  | .str s =>
      (.str s,
        if collectStats && depth == 1 then
          let st1 := statsModify (dropFirst path) (fun c => { c with string := c.string + 1 }) stats
          let st2 := if isUUID s then
              statsModify (dropFirst path) (fun c => { c with uuid := c.uuid + 1 }) st1
            else st1
          if looksLikeDateTime s then
            statsModify (dropFirst path) (fun c => { c with dateTime := c.dateTime + 1 }) st2
          else st2
        else stats)
  | .arr xs =>
      let r := procElems collectStats path depth 0 stats xs
      (.arr r.1, r.2)
  | .obj ms =>
      let r := procMembers collectStats path depth stats (sortMembers ms)
      (.obj r.1, r.2)
termination_by j => sizeOf j
decreasing_by
  all_goals simp only [Json.arr.sizeOf_spec, Json.obj.sizeOf_spec, sizeOf_sortMembers]
  all_goals omega

/-- The array loop of `processJSONRecord` (stage.cpp lines 94-107): element
`x` is processed at path `path/x` and depth `depth + 1`. -/
def procElems (collectStats : Bool) (path : String) (depth : Nat) (x : Nat)
    (stats : Stats) : List Json → List Json × Stats
  | [] => ([], stats)
  | v :: rest =>
      let r1 := processJSONRecord collectStats (path ++ "/" ++ toString x) (depth + 1) stats v
      let r2 := procElems collectStats path depth (x + 1) r1.2 rest
      (r1.1 :: r2.1, r2.2)
termination_by xs => sizeOf xs
decreasing_by
  all_goals simp only [List.cons.sizeOf_spec]
  all_goals omega

/-- The object loop of `processJSONRecord` (stage.cpp lines 108-118), run on
the sorted member list: the member named `n` is processed at path `path/n`
and depth `depth + 1`. -/
def procMembers (collectStats : Bool) (path : String) (depth : Nat)
    (stats : Stats) : List (String × Json) → List (String × Json) × Stats
  | [] => ([], stats)
  | (n, v) :: rest =>
      let r1 := processJSONRecord collectStats (path ++ "/" ++ n) (depth + 1) stats v
      let r2 := procMembers collectStats path depth r1.2 rest
      ((n, r1.1) :: r2.1, r2.2)
termination_by ms => sizeOf ms
decreasing_by
  all_goals simp only [List.cons.sizeOf_spec, Prod.mk.sizeOf_spec]
  all_goals omega
end

theorem procElems_fst {c : Bool} {p : String} {d : Nat} (xs : List Json)
    (ih : ∀ v ∈ xs, ∀ p' d' st', (processJSONRecord c p' d' st' v).1 = canonicalize v) :
    ∀ x st, (procElems c p d x st xs).1 = canonElems xs := by
  induction xs with
  | nil => intro x st; simp [procElems, canonElems]
  | cons v rest ihl =>
    intro x st
    simp only [procElems, canonElems]
    rw [ih v (List.mem_cons_self v rest) _ _ _,
      ihl (fun v' hv => ih v' (List.mem_cons_of_mem _ hv)) _ _]

theorem procMembers_fst {c : Bool} {p : String} {d : Nat} (l : List (String × Json))
    (ih : ∀ m ∈ l, ∀ p' d' st', (processJSONRecord c p' d' st' m.2).1 = canonicalize m.2) :
    ∀ st, (procMembers c p d st l).1 = canonMembers l := by
  induction l with
  | nil => intro st; simp [procMembers, canonMembers]
  | cons m rest ihl =>
    intro st
    cases m with
    | mk n v =>
      simp only [procMembers, canonMembers]
      rw [ih (n, v) (List.mem_cons_self _ rest) _ _ _,
        ihl (fun m' hm => ih m' (List.mem_cons_of_mem _ hm)) _]

/-- The record tree produced by `processJSONRecord` does not depend on the
pass: with or without statistics collection, and whatever the accumulated
statistics, the node returned is the canonicalized input. -/
theorem processJSONRecord_fst (j : Json) :
    ∀ c p d st, (processJSONRecord c p d st j).1 = canonicalize j := by
  induction j using Json.inductionOn with
  | hnull => intro c p d st; simp [processJSONRecord, canonicalize]
  | hbool b => intro c p d st; simp [processJSONRecord, canonicalize]
  | hint i => intro c p d st; simp [processJSONRecord, canonicalize]
  | hfloat q => intro c p d st; simp [processJSONRecord, canonicalize]
  | hstr s => intro c p d st; simp [processJSONRecord, canonicalize]
  | harr xs ih =>
    intro c p d st
    simp only [processJSONRecord, canonicalize]
    rw [procElems_fst xs (fun v hv p' d' st' => ih v hv c p' d' st') 0 st]
  | hobj ms ih =>
    intro c p d st
    simp only [processJSONRecord, canonicalize]
    rw [procMembers_fst (sortMembers ms)
      (fun m hm p' d' st' => ih m ((sortMembers_perm ms).mem_iff.mp hm) c p' d' st') st]

/-- C5.  For a record with the required "id" member and distinct member
names, canonicalization places the "id" member first and the remaining
top-level members in strictly ascending lexicographic (byte-wise) order. -/
theorem canonicalize_id_first {ms : List (String × Json)}
    (hnd : (ms.map Prod.fst).Nodup) (hid : "id" ∈ ms.map Prod.fst) :
    ∃ v rest, canonicalize (.obj ms) = .obj (("id", v) :: rest) ∧
      List.Chain' (· < ·) (rest.map Prod.fst) ∧
      "id" ∉ rest.map Prod.fst := by
  rw [canonicalize]
  have hsorted := sorted_sortMembers hnd
  have hperm := (sortMembers_perm ms).map Prod.fst
  have hid' : "id" ∈ (sortMembers ms).map Prod.fst := hperm.mem_iff.mpr hid
  obtain ⟨v, rest, heq⟩ := sorted_head_id hsorted hid'
  have hnd' : ((sortMembers ms).map Prod.fst).Nodup := hperm.nodup_iff.mpr hnd
  rw [heq] at hsorted hnd'
  rcases hsorted with - | ⟨hhead, hrest⟩
  simp only [List.map_cons, List.nodup_cons] at hnd'
  refine ⟨canonicalize v, canonMembers rest, ?_, ?_, ?_⟩
  · rw [heq, canonMembers]
  · rw [canonMembers_map_fst]
    exact sorted_names_strict hrest hnd'.2 hnd'.1
  · rw [canonMembers_map_fst]
    exact hnd'.1

/-! ### Algebra of the statistics map -/

theorem statsLookup_eq_none {st : Stats} {key : String}
    (h : ∀ x ∈ st, key ≠ x.1) : st.lookup key = none := by
  induction st with
  | nil => rfl
  | cons a rest ih =>
    cases a with
    | mk k c =>
      have hne : key ≠ k := h (k, c) (List.mem_cons_self _ _)
      have hbe : (key == k) = false := by simpa using hne
      simp only [List.lookup, hbe]
      exact ih (fun x hx => h x (List.mem_cons_of_mem _ hx))

theorem statsGet_nil (k : String) : statsGet [] k = {} := rfl

theorem statsGet_cons (k0 : String) (c : Counts) (rest : Stats) (k : String) :
    statsGet ((k0, c) :: rest) k = if k = k0 then c else statsGet rest k := by
  by_cases h : k = k0
  · subst h
    simp [statsGet, List.lookup]
  · have hbe : (k == k0) = false := by simpa using h
    simp [statsGet, List.lookup, hbe, h]

theorem statsGet_eq_default {st : Stats} {key : String}
    (h : ∀ x ∈ st, key ≠ x.1) : statsGet st key = {} := by
  simp [statsGet, statsLookup_eq_none h]

theorem mem_statsModify {st : Stats} {key : String} {f : Counts → Counts}
    {x : String × Counts} (h : x ∈ statsModify key f st) :
    x.1 = key ∨ x.1 ∈ st.map Prod.fst := by
  induction st with
  | nil =>
    simp only [statsModify, List.mem_singleton] at h
    left; rw [h]
  | cons a rest ih =>
    cases a with
    | mk k c =>
      simp only [statsModify] at h
      split at h
      · rcases List.mem_cons.mp h with rfl | hx
        · right; simp
        · right; simpa using Or.inr (List.mem_map_of_mem Prod.fst hx)
      · split at h
        · rcases List.mem_cons.mp h with rfl | hx
          · left; rfl
          · rcases List.mem_cons.mp hx with rfl | hx'
            · right; simp
            · right; simpa using Or.inr (List.mem_map_of_mem Prod.fst hx')
        · rcases List.mem_cons.mp h with rfl | hx
          · right; simp
          · rcases ih hx with h1 | h1
            · left; exact h1
            · right; simpa using Or.inr h1

theorem statsWF_statsModify {st : Stats} (key : String) (f : Counts → Counts)
    (hwf : StatsWF st) : StatsWF (statsModify key f st) := by
  induction st with
  | nil => simp [statsModify, StatsWF]
  | cons a rest ih =>
    cases a with
    | mk k0 c =>
      rcases hwf with - | ⟨hk0, hrest⟩
      simp only [statsModify]
      by_cases h1 : key = k0
      · rw [if_pos h1]
        exact List.Pairwise.cons (fun x hx => hk0 x hx) hrest
      · rw [if_neg h1]
        by_cases h2 : key < k0
        · rw [if_pos h2]
          refine List.Pairwise.cons ?_ (List.Pairwise.cons (fun x hx => hk0 x hx) hrest)
          intro x hx
          rcases List.mem_cons.mp hx with rfl | hx
          · exact h2
          · exact lt_trans h2 (hk0 x hx)
        · rw [if_neg h2]
          have h3 : k0 < key := by
            rcases lt_trichotomy key k0 with h | h | h
            · exact absurd h h2
            · exact absurd h h1
            · exact h
          refine List.Pairwise.cons ?_ (ih hrest)
          intro x hx
          rcases mem_statsModify hx with hx1 | hx1
          · rw [hx1]; exact h3
          · obtain ⟨y, hy, hyx⟩ := List.mem_map.mp hx1
            exact hyx ▸ hk0 y hy

theorem statsGet_statsModify {st : Stats} (hwf : StatsWF st)
    (key : String) (f : Counts → Counts) (k : String) :
    statsGet (statsModify key f st) k =
      if k = key then f (statsGet st key) else statsGet st k := by
  induction st with
  | nil => simp only [statsModify, statsGet_cons, statsGet_nil]
  | cons a rest ih =>
    cases a with
    | mk k0 c =>
      rcases hwf with - | ⟨hk0, hrest⟩
      have ihr := ih hrest
      simp only [statsModify]
      by_cases h1 : key = k0
      · rw [if_pos h1]
        by_cases hk : k = key
        · simp [statsGet_cons, hk, h1]
        · simp [statsGet_cons, hk, ← h1]
      · rw [if_neg h1]
        by_cases h2 : key < k0
        · rw [if_pos h2]
          by_cases hk : k = key
          · have hdef : statsGet rest key = {} := by
              refine statsGet_eq_default (fun x hx heq => ?_)
              have hlt2 := hk0 x hx
              rw [← heq] at hlt2
              exact absurd (lt_trans h2 hlt2) (lt_irrefl _)
            simp [statsGet_cons, hk, h1, hdef]
          · simp [statsGet_cons, hk]
        · rw [if_neg h2]
          by_cases hk : k = k0
          · have hne : ¬ k = key := fun h => h1 ((h ▸ hk : key = k0))
            simp [statsGet_cons, hk, hne, Ne.symm h1]
          · simp [statsGet_cons, hk, ihr, h1, Ne.symm h1]

theorem statsModify_statsModify_same (st : Stats) (key : String)
    (f g : Counts → Counts) :
    statsModify key f (statsModify key g st) =
      statsModify key (fun c => f (g c)) st := by
  induction st with
  | nil => simp [statsModify]
  | cons a rest ih =>
    cases a with
    | mk k0 c =>
      by_cases h1 : key = k0
      · simp [statsModify, h1]
      · by_cases h2 : key < k0
        · simp [statsModify, h1, h2]
        · simp [statsModify, h1, h2, ih]

/-! ### Invariants of the statistics collected in pass 1 -/

/-- The first claimed `Counts` invariant: integer and floating occurrences
partition the numeric occurrences. -/
def CountsInv1 (c : Counts) : Prop := c.integer + c.floating = c.number

/-- The sum of the four scalar-classification buckets of one field. -/
def s4 (c : Counts) : Nat := c.null + c.boolean + c.number + c.string

/-- Statistics-map states reachable by the collector: sorted keys and the
integer/floating partition of `number` in every entry. -/
def StatsOK (st : Stats) : Prop := StatsWF st ∧ ∀ k, CountsInv1 (statsGet st k)

theorem statsOK_nil : StatsOK [] :=
  ⟨List.Pairwise.nil, fun k => by simp [statsGet_nil, CountsInv1]⟩

theorem statsOK_statsModify {st : Stats} {key : String} {f : Counts → Counts}
    (h : StatsOK st) (hf : ∀ x, CountsInv1 x → CountsInv1 (f x)) :
    StatsOK (statsModify key f st) := by
  refine ⟨statsWF_statsModify key f h.1, fun k => ?_⟩
  rw [statsGet_statsModify h.1]
  split
  · exact hf _ (h.2 key)
  · exact h.2 k

/-- The net effect on one field's `Counts` of classifying a scalar value at
depth 1 (stage.cpp lines 56-93). -/
def updateCounts (v : Json) (c : Counts) : Counts :=
  match v with
  | .null => { c with null := c.null + 1 }
  | .boolean _ => { c with boolean := c.boolean + 1 }
  | .intNum _ => { c with number := c.number + 1, integer := c.integer + 1 }
  | .floatNum _ => { c with number := c.number + 1, floating := c.floating + 1 }
  | .str s =>
      { c with
        string := c.string + 1
        uuid := c.uuid + (if isUUID s then 1 else 0)
        dateTime := c.dateTime + (if looksLikeDateTime s then 1 else 0) }
  | .arr _ => c
  | .obj _ => c

theorem updateCounts_inv1 (v : Json) (c : Counts) (h : CountsInv1 c) :
    CountsInv1 (updateCounts v c) := by
  cases v <;> simp [updateCounts, CountsInv1] at h ⊢ <;> omega

theorem updateCounts_s4 (v : Json) (c : Counts) :
    s4 (updateCounts v c) ≤ s4 c + 1 := by
  cases v <;> simp [updateCounts, s4] <;> omega

/-- Whether `processJSONRecord` classifies a node into a `Counts` bucket:
only scalars are classified; arrays and objects are merely recursed into. -/
def isScalar : Json → Bool
  | .arr _ => false
  | .obj _ => false
  | _ => true

/-! Statistics are only ever modified at depth 1: deeper nodes (and their
children) leave the map untouched. -/

theorem procElems_stats_deep {c : Bool} {p : String} (xs : List Json)
    (ih : ∀ v ∈ xs, ∀ p' d' st', 2 ≤ d' → (processJSONRecord c p' d' st' v).2 = st') :
    ∀ d x st, 1 ≤ d → (procElems c p d x st xs).2 = st := by
  induction xs with
  | nil => intro d x st hd; simp [procElems]
  | cons v rest ihl =>
    intro d x st hd
    simp only [procElems]
    rw [ih v (List.mem_cons_self v rest) _ (d + 1) _ (by omega),
      ihl (fun v' hv => ih v' (List.mem_cons_of_mem _ hv)) d (x + 1) st hd]

theorem procMembers_stats_deep {c : Bool} {p : String} (l : List (String × Json))
    (ih : ∀ m ∈ l, ∀ p' d' st', 2 ≤ d' → (processJSONRecord c p' d' st' m.2).2 = st') :
    ∀ d st, 1 ≤ d → (procMembers c p d st l).2 = st := by
  induction l with
  | nil => intro d st hd; simp [procMembers]
  | cons m rest ihl =>
    intro d st hd
    cases m with
    | mk n v =>
      simp only [procMembers]
      rw [ih (n, v) (List.mem_cons_self _ rest) _ (d + 1) _ (by omega),
        ihl (fun m' hm => ih m' (List.mem_cons_of_mem _ hm)) d st hd]

theorem processJSONRecord_stats_deep (j : Json) :
    ∀ c p d st, 2 ≤ d → (processJSONRecord c p d st j).2 = st := by
  induction j using Json.inductionOn with
  | hnull =>
    intro c p d st hd
    have h1 : (d == 1) = false := by simp; omega
    simp [processJSONRecord, h1]
  | hbool b =>
    intro c p d st hd
    have h1 : (d == 1) = false := by simp; omega
    simp [processJSONRecord, h1]
  | hint i =>
    intro c p d st hd
    have h1 : (d == 1) = false := by simp; omega
    simp [processJSONRecord, h1]
  | hfloat q =>
    intro c p d st hd
    have h1 : (d == 1) = false := by simp; omega
    simp [processJSONRecord, h1]
  | hstr s =>
    intro c p d st hd
    have h1 : (d == 1) = false := by simp; omega
    simp [processJSONRecord, h1]
  | harr xs ih =>
    intro c p d st hd
    simp only [processJSONRecord]
    exact procElems_stats_deep xs (fun v hv p' d' st' h => ih v hv c p' d' st' h)
      d 0 st (by omega)
  | hobj ms ih =>
    intro c p d st hd
    simp only [processJSONRecord]
    exact procMembers_stats_deep (sortMembers ms)
      (fun m hm p' d' st' h => ih m ((sortMembers_perm ms).mem_iff.mp hm) c p' d' st' h)
      d st (by omega)

/-- Characterization of the statistics side effect of processing one value at
depth 1 in pass 1: a scalar updates exactly the bucket of the field named by
the path; an array or object leaves the statistics untouched (its children
sit at depth 2 and beyond). -/
theorem processJSONRecord_depth1_stats (v : Json) (p : String) (st : Stats) :
    (processJSONRecord true p 1 st v).2 =
      if isScalar v then statsModify (dropFirst p) (updateCounts v) st else st := by
  cases v with
  | null =>
    simp only [processJSONRecord, isScalar]
    norm_num
    congr 1
  | boolean b =>
    simp only [processJSONRecord, isScalar]
    norm_num
    congr 1
  | intNum i =>
    simp only [processJSONRecord, isScalar]
    norm_num
    rw [statsModify_statsModify_same]
    congr 1
  | floatNum q =>
    simp only [processJSONRecord, isScalar]
    norm_num
    rw [statsModify_statsModify_same]
    congr 1
  | str s =>
    simp only [processJSONRecord, isScalar]
    norm_num
    by_cases hu : isUUID s
    · by_cases hl : looksLikeDateTime s
      · rw [if_pos hu, if_pos hl]
        rw [statsModify_statsModify_same, statsModify_statsModify_same]
        congr 1
        funext c
        simp [updateCounts, hu, hl]
      · rw [if_pos hu, if_neg hl]
        rw [statsModify_statsModify_same]
        congr 1
        funext c
        simp [updateCounts, hu, hl]
    · by_cases hl : looksLikeDateTime s
      · rw [if_neg hu, if_pos hl]
        rw [statsModify_statsModify_same]
        congr 1
        funext c
        simp [updateCounts, hu, hl]
      · rw [if_neg hu, if_neg hl]
        congr 1
        funext c
        simp [updateCounts, hu, hl]
  | arr xs =>
    simp only [processJSONRecord, isScalar, if_neg]
    exact procElems_stats_deep xs
      (fun v hv p' d' st' h => processJSONRecord_stats_deep v true p' d' st' h)
      1 0 st (by omega)
  | obj ms =>
    simp only [processJSONRecord, isScalar, if_neg]
    exact procMembers_stats_deep (sortMembers ms)
      (fun m hm p' d' st' h => processJSONRecord_stats_deep m.2 true p' d' st' h)
      1 st (by omega)

/-- The statistics key used for the top-level member `n` of a record: the
root call passes the empty path, the member is processed at path `"/" ++ n`,
and `c_str() + 1` strips the leading slash. -/
theorem dropFirst_root (n : String) : dropFirst ("" ++ "/" ++ n) = n := by
  have h : (("" ++ "/" ++ n)).data = '/' :: n.data := by simp [String.data_append]
  simp [dropFirst, h]

theorem statsOK_procElems {c : Bool} {p : String} (xs : List Json)
    (ih : ∀ v ∈ xs, ∀ p' d' st', StatsOK st' → StatsOK (processJSONRecord c p' d' st' v).2) :
    ∀ d x st, StatsOK st → StatsOK (procElems c p d x st xs).2 := by
  induction xs with
  | nil => intro d x st h; simpa [procElems] using h
  | cons v rest ihl =>
    intro d x st h
    simp only [procElems]
    exact ihl (fun v' hv => ih v' (List.mem_cons_of_mem _ hv)) d (x + 1) _
      (ih v (List.mem_cons_self v rest) _ _ _ h)

theorem statsOK_procMembers {c : Bool} {p : String} (l : List (String × Json))
    (ih : ∀ m ∈ l, ∀ p' d' st', StatsOK st' → StatsOK (processJSONRecord c p' d' st' m.2).2) :
    ∀ d st, StatsOK st → StatsOK (procMembers c p d st l).2 := by
  induction l with
  | nil => intro d st h; simpa [procMembers] using h
  | cons m rest ihl =>
    intro d st h
    cases m with
    | mk n v =>
      simp only [procMembers]
      exact ihl (fun m' hm => ih m' (List.mem_cons_of_mem _ hm)) d _
        (ih (n, v) (List.mem_cons_self _ rest) _ _ _ h)

/-- Every statistics map reachable by the collector from a reachable map is
again sorted with the integer/floating partition intact. -/
theorem statsOK_processJSONRecord (j : Json) :
    ∀ c p d st, StatsOK st → StatsOK (processJSONRecord c p d st j).2 := by
  induction j using Json.inductionOn with
  | hnull =>
    intro c p d st h
    simp only [processJSONRecord]
    split
    · exact statsOK_statsModify h (fun x hx => by
        simp [CountsInv1] at hx ⊢; omega)
    · exact h
  | hbool b =>
    intro c p d st h
    simp only [processJSONRecord]
    split
    · exact statsOK_statsModify h (fun x hx => by
        simp [CountsInv1] at hx ⊢; omega)
    · exact h
  | hint i =>
    intro c p d st h
    simp only [processJSONRecord]
    split
    · rw [statsModify_statsModify_same]
      exact statsOK_statsModify h (fun x hx => by
        simp [CountsInv1] at hx ⊢; omega)
    · exact h
  | hfloat q =>
    intro c p d st h
    simp only [processJSONRecord]
    split
    · rw [statsModify_statsModify_same]
      exact statsOK_statsModify h (fun x hx => by
        simp [CountsInv1] at hx ⊢; omega)
    · exact h
  | hstr s =>
    intro c p d st h
    simp only [processJSONRecord]
    split
    · by_cases hu : isUUID s
      · by_cases hl : looksLikeDateTime s
        · rw [if_pos hu, if_pos hl, statsModify_statsModify_same,
            statsModify_statsModify_same]
          exact statsOK_statsModify h (fun x hx => by
            simp [CountsInv1] at hx ⊢; omega)
        · rw [if_pos hu, if_neg hl, statsModify_statsModify_same]
          exact statsOK_statsModify h (fun x hx => by
            simp [CountsInv1] at hx ⊢; omega)
      · by_cases hl : looksLikeDateTime s
        · rw [if_neg hu, if_pos hl, statsModify_statsModify_same]
          exact statsOK_statsModify h (fun x hx => by
            simp [CountsInv1] at hx ⊢; omega)
        · rw [if_neg hu, if_neg hl]
          exact statsOK_statsModify h (fun x hx => by
            simp [CountsInv1] at hx ⊢; omega)
    · exact h
  | harr xs ih =>
    intro c p d st h
    simp only [processJSONRecord]
    exact statsOK_procElems xs (fun v hv p' d' st' h' => ih v hv c p' d' st' h') d 0 st h
  | hobj ms ih =>
    intro c p d st h
    simp only [processJSONRecord]
    exact statsOK_procMembers (sortMembers ms)
      (fun m hm p' d' st' h' => ih m ((sortMembers_perm ms).mem_iff.mp hm) c p' d' st' h')
      d st h

/-- One top-level member contributes at most one scalar classification (to
its own field) per record. -/
theorem procMembers_root_s4 (l : List (String × Json)) :
    ∀ st, StatsOK st → (l.map Prod.fst).Nodup → ∀ k,
      s4 (statsGet (procMembers true "" 0 st l).2 k)
        ≤ s4 (statsGet st k) + (if k ∈ l.map Prod.fst then 1 else 0) := by
  induction l with
  | nil => intro st hok hnd k; simp [procMembers]
  | cons m rest ihl =>
    intro st hok hnd k
    cases m with
    | mk n v =>
      simp only [procMembers]
      have hchar := processJSONRecord_depth1_stats v ("" ++ "/" ++ n) st
      rw [dropFirst_root] at hchar
      have hok1 : StatsOK (processJSONRecord true ("" ++ "/" ++ n) (0 + 1) st v).2 :=
        statsOK_processJSONRecord v true _ _ st hok
      simp only [List.map_cons, List.nodup_cons] at hnd
      have hrest := ihl _ hok1 hnd.2 k
      have hhead : s4 (statsGet (processJSONRecord true ("" ++ "/" ++ n) (0 + 1) st v).2 k)
          ≤ s4 (statsGet st k) + (if k = n then 1 else 0) := by
        rw [show (0 + 1 : Nat) = 1 from rfl, hchar]
        split
        · rw [statsGet_statsModify hok.1]
          by_cases hk : k = n
          · rw [if_pos hk, if_pos hk, hk]
            exact updateCounts_s4 v _
          · rw [if_neg hk, if_neg hk]
            omega
        · split <;> omega
      by_cases hk : k = n
      · have hkr : k ∉ rest.map Prod.fst := hk ▸ hnd.1
        rw [if_neg hkr] at hrest
        simp only [List.map_cons, List.mem_cons]
        rw [if_pos (Or.inl hk), if_pos hk] at *
        omega
      · simp only [List.map_cons, List.mem_cons]
        rw [if_neg hk] at hhead
        have : (k = n ∨ k ∈ rest.map Prod.fst) ↔ k ∈ rest.map Prod.fst := by
          constructor
          · rintro (h | h)
            · exact absurd h hk
            · exact h
          · exact Or.inr
        rw [if_congr this rfl rfl]
        omega

/-- The statistics effect of processing one whole record (a top-level object)
in pass 1: each field's four scalar buckets grow by at most one. -/
theorem record_stats_s4 (ms : List (String × Json)) (st : Stats)
    (hok : StatsOK st) (hnd : (ms.map Prod.fst).Nodup) (k : String) :
    s4 (statsGet (processJSONRecord true "" 0 st (.obj ms)).2 k)
      ≤ s4 (statsGet st k) + (if k ∈ ms.map Prod.fst then 1 else 0) := by
  simp only [processJSONRecord]
  have hperm := (sortMembers_perm ms).map Prod.fst
  have h := procMembers_root_s4 (sortMembers ms) st hok (hperm.nodup_iff.mpr hnd) k
  rwa [if_congr hperm.mem_iff rfl rfl] at h

/-- Pass-1 statistics accumulation over a finite stream of records: each
record parsed by `JSONHandler::EndObject` in pass 1 is handed to
`processJSONRecord` with `collectStats = true`, the empty path and depth 0,
threading the shared statistics map (stage.cpp lines 313-341, 661). -/
def passOneStats (recs : List Json) : Stats :=
  recs.foldl (fun st r => (processJSONRecord true "" 0 st r).2) []

/-- A record (top-level object) observes a field when it has a member of that
name. -/
def recordHasField (f : String) : Json → Bool
  | .obj ms => decide (f ∈ ms.map Prod.fst)
  | _ => false

theorem passOne_fold_s4 (recs : List Json)
    (hrec : ∀ r ∈ recs, ∃ ms, r = Json.obj ms ∧ (ms.map Prod.fst).Nodup) :
    ∀ st, StatsOK st → ∀ k,
      s4 (statsGet (recs.foldl (fun st r => (processJSONRecord true "" 0 st r).2) st) k)
        ≤ s4 (statsGet st k) + (recs.filter (recordHasField k)).length := by
  induction recs with
  | nil => intro st hok k; simp
  | cons r rest ihl =>
    intro st hok k
    obtain ⟨ms, rfl, hnd⟩ := hrec r (List.mem_cons_self r rest)
    simp only [List.foldl_cons]
    have h1 := record_stats_s4 ms st hok hnd k
    have hok1 := statsOK_processJSONRecord (.obj ms) true "" 0 st hok
    have h2 := ihl (fun r' hr => hrec r' (List.mem_cons_of_mem _ hr)) _ hok1 k
    rw [List.filter_cons]
    by_cases hk : k ∈ ms.map Prod.fst
    · rw [if_pos hk] at h1
      rw [if_pos (by simp [recordHasField, hk])]
      simp only [List.length_cons]
      omega
    · rw [if_neg hk] at h1
      rw [if_neg (by simp [recordHasField, hk])]
      omega

theorem passOneStats_ok (recs : List Json) : StatsOK (passOneStats recs) := by
  have : ∀ st, StatsOK st →
      StatsOK (recs.foldl (fun st r => (processJSONRecord true "" 0 st r).2) st) := by
    induction recs with
    | nil => intro st h; simpa using h
    | cons r rest ihl =>
      intro st h
      simp only [List.foldl_cons]
      exact ihl _ (statsOK_processJSONRecord r true "" 0 st h)
  exact this [] statsOK_nil

/-! ### JSON serialization (rapidjson `Writer` and `PrettyWriter`) -/

/-- Uppercase hexadecimal digit. -/
def hexDigit (n : Nat) : Char :=
  if n < 10 then Char.ofNat (48 + n) else Char.ofNat (55 + n)

/-- A `\uXXXX` escape. -/
def uEscape (n : Nat) : String :=
  "\\u" ++ String.mk [hexDigit (n / 4096 % 16), hexDigit (n / 256 % 16),
    hexDigit (n / 16 % 16), hexDigit (n % 16)]

/-- The string escaping of rapidjson's writer: quote, backslash and the named
control characters get two-character escapes, other control characters a
`\uXXXX` escape, everything else is written raw. -/
def escapeJsonString (s : String) : String :=
  s.data.foldl (fun acc ch =>
    acc ++ (
      if ch = Char.ofNat 34 then "\\" ++ String.mk [Char.ofNat 34]
      else if ch = Char.ofNat 92 then "\\\\"
      else if ch = Char.ofNat 8 then "\\b"
      else if ch = Char.ofNat 12 then "\\f"
      else if ch = Char.ofNat 10 then "\\n"
      else if ch = Char.ofNat 13 then "\\r"
      else if ch = Char.ofNat 9 then "\\t"
      else if ch.toNat < 32 then uEscape ch.toNat
      else String.singleton ch)) ""

/-- rapidjson writes doubles with `dtoa` (shortest round-tripping decimal).
No claim depends on the digits chosen for a non-integral double, so the model
fixes a deterministic form that is exact on integral values. -/
def dtoa (q : ℚ) : String :=
  if q.den = 1 then toString q.num ++ ".0"
  else toString q.num ++ "e-" ++ toString q.den

def quoteStr (s : String) : String :=
  String.mk [Char.ofNat 34] ++ escapeJsonString s ++ String.mk [Char.ofNat 34]

mutual
/-- Compact serialization, `json::Writer` (used for the retry of the raw
document column, stage.cpp lines 288-291). -/
def writeJson : Json → String
  | .null => "null"
  | .boolean b => if b then "true" else "false"
  | .intNum i => toString i
  | .floatNum q => dtoa q
  | .str s => quoteStr s
  | .arr xs => "[" ++ writeElems xs ++ "]"
  | .obj ms => "\x7b" ++ writeMembers ms ++ "\x7d"
termination_by j => sizeOf j
decreasing_by
  all_goals simp only [Json.arr.sizeOf_spec, Json.obj.sizeOf_spec]
  all_goals omega

def writeElems : List Json → String
  | [] => ""
  | [x] => writeJson x
  | x :: rest => writeJson x ++ "," ++ writeElems rest
termination_by xs => sizeOf xs
decreasing_by
  all_goals simp only [List.cons.sizeOf_spec]
  all_goals omega

def writeMembers : List (String × Json) → String
  | [] => ""
  | [(n, v)] => quoteStr n ++ ":" ++ writeJson v
  | (n, v) :: rest => quoteStr n ++ ":" ++ writeJson v ++ "," ++ writeMembers rest
termination_by ms => sizeOf ms
decreasing_by
  all_goals simp only [List.cons.sizeOf_spec, Prod.mk.sizeOf_spec]
  all_goals omega
end

/-- Indentation of rapidjson `PrettyWriter` at nesting level `n`: four
spaces per level (the defaults). -/
def indentStr (n : Nat) : String := String.mk (List.replicate (4 * n) (Char.ofNat 32))

mutual
/-- Pretty serialization, `json::PrettyWriter` with default settings (used
for the raw document column, stage.cpp lines 280-283): each member/element on
its own line, four-space indent, `": "` after member names, `\x7b\x7d`/`[]` for
empty containers. -/
def prettyJson (ind : Nat) : Json → String
  | .null => "null"
  | .boolean b => if b then "true" else "false"
  | .intNum i => toString i
  | .floatNum q => dtoa q
  | .str s => quoteStr s
  | .arr [] => "[]"
  | .arr (x :: xs) =>
      "[\n" ++ prettyElems (ind + 1) (x :: xs) ++ "\n" ++ indentStr ind ++ "]"
  | .obj [] => "\x7b\x7d"
  | .obj (m :: ms) =>
      "\x7b\n" ++ prettyMembers (ind + 1) (m :: ms) ++ "\n" ++ indentStr ind ++ "\x7d"
termination_by j => sizeOf j
decreasing_by
  all_goals simp only [Json.arr.sizeOf_spec, Json.obj.sizeOf_spec, List.cons.sizeOf_spec]
  all_goals omega

def prettyElems (ind : Nat) : List Json → String
  | [] => ""
  | [x] => indentStr ind ++ prettyJson ind x
  | x :: rest => indentStr ind ++ prettyJson ind x ++ ",\n" ++ prettyElems ind rest
termination_by xs => sizeOf xs
decreasing_by
  all_goals simp only [List.cons.sizeOf_spec]
  all_goals omega

def prettyMembers (ind : Nat) : List (String × Json) → String
  | [] => ""
  | [(n, v)] => indentStr ind ++ quoteStr n ++ ": " ++ prettyJson ind v
  | (n, v) :: rest =>
      indentStr ind ++ quoteStr n ++ ": " ++ prettyJson ind v ++ ",\n" ++
        prettyMembers ind rest
termination_by ms => sizeOf ms
decreasing_by
  all_goals simp only [List.cons.sizeOf_spec, Prod.mk.sizeOf_spec]
  all_goals omega
end

/-- The root-level pretty print handed to `encode_string_const`. -/
def prettyPrint (j : Json) : String := prettyJson 0 j

/-! ### The SQL value encoder (`writeTuple`) -/

/-- The database-dialect capability interface `dbtype` (dbtype.h/dbtype.cpp,
whose source is not under src/).  Modelled from the spec: the staging core
consults only a string-constant encoder, the JSON column type spelling, the
distribution/sort-key clause for table creation, and the dialect name (used
to decide whether secondary indexes are supported). -/
structure dbtype where
  encode_string_const : String → String
  json_type : String
  redshift_keys : String → String → String
  type_string : String

/-- An apostrophe, kept out of literals. -/
def sq : String := String.mk [Char.ofNat 39]

/-- Modelled from the spec: the PostgreSQL dialect.  `encode_string_const`
produces a quoted/escaped SQL string literal; the exact escaping lives in
dbtype.cpp (not under src/), and no claim depends on it beyond the literal
length, so the standard SQL form (single quotes, embedded quotes doubled) is
used. -/
def postgres : dbtype where
  encode_string_const s :=
    sq ++ (s.data.foldl (fun acc ch =>
      acc ++ (if ch = Char.ofNat 39 then sq ++ sq else String.singleton ch)) "") ++ sq
  json_type := "JSON"
  redshift_keys := fun _ _ => ""
  type_string := "PostgreSQL"

/-- The closed set of column types (`ColumnType`, schema.h). -/
inductive ColumnType where
  | bigint | boolean | id | numeric | timestamptz | varchar
deriving Repr, DecidableEq

/-- Model of `ColumnSchema`: destination column name, source field name, type. -/
structure ColumnSchema where
  columnType : ColumnType
  columnName : String
  sourceColumnName : String
deriving Repr, DecidableEq

/-- Model of `TableSchema`: table identity plus the inferred columns.  The `skip`
flag is the one consulted by the caller (main.cpp lines 289-293). -/
structure TableSchema where
  tableName : String
  sourcePath : String
  moduleName : String
  columns : List ColumnSchema
  skip : Bool
deriving Repr, DecidableEq

/-- Model of `GetInt()` as invoked on big-integer columns (stage.cpp line 239): the
parsed number is stored as a 64-bit integer; `GetInt` asserts the value
carries `kIntFlag` (only set when it fits a signed 32-bit int) — a debug
build aborts on wider values — and reads the 32-bit union field, i.e. the
low 32 bits in two's complement on the build targets. -/
def toInt32 (i : Int) : Int := (i + 2 ^ 31) % 2 ^ 32 - 2 ^ 31

/-- Model of `GetInt()` (junk on non-integers, where the C++ call is undefined; no
claim evaluates it there). -/
def getInt : Json → Int
  | .intNum i => toInt32 i
  | _ => 0

/-- Model of `GetBool()`. -/
def getBool : Json → Bool
  | .boolean b => b
  | _ => false

/-- Model of `GetDouble()`: exact on integer-flagged values up to 2^53; the claims
evaluate it only there. -/
def getDouble : Json → ℚ
  | .intNum i => (i : ℚ)
  | .floatNum q => q
  | _ => 0

/-- Model of `GetString()`. -/
def getString : Json → String
  | .str s => s
  | _ => ""

/-- Model of `IsNull()`. -/
def isNullJ : Json → Bool
  | .null => true
  | _ => false

/-- Zero-padding to six digits for the fractional part of `%f`. -/
def padZeros6 (s : String) : String :=
  String.mk (List.replicate (6 - s.length) (Char.ofNat 48)) ++ s

/-- Model of `std::to_string(double)`: fixed-point `%f` with six fractional digits.
The claims evaluate it only where the sixth-digit rounding cannot tie;
modelled as round-half-up on the exact rational value. -/
def cppToStringDouble (q : ℚ) : String :=
  let n : Int := ⌊|q| * 1000000 + 1 / 2⌋
  (if q < 0 then "-" else "") ++ toString (n / 1000000) ++ "." ++
    padZeros6 (toString (n % 1000000))

/-- The warning of stage.cpp lines 248-254. -/
def numericOverflowWarning (tableName columnName id : String) (d : ℚ) : String :=
  "Numeric value exceeds 10^10:\n    Table: " ++ tableName ++
    "\n    Column: " ++ columnName ++ "\n    ID: " ++ id ++
    "\n    Value: " ++ cppToStringDouble d ++ "\n    Action: Value set to 0"

/-- The warning of stage.cpp lines 265-270. -/
def stringLengthWarning (tableName columnName id : String) : String :=
  "String length exceeds database limit:\n    Table: " ++ tableName ++
    "\n    Column: " ++ columnName ++ "\n    ID: " ++ id ++
    "\n    Action: Value set to NULL"

/-- The warning of stage.cpp lines 293-297. -/
def jsonSizeWarning (tableName id : String) : String :=
  "JSON object size exceeds database limit:\n    Table: " ++ tableName ++
    "\n    ID: " ++ id ++
    "\n    Action: Value for column " ++ String.mk [Char.ofNat 34] ++ "data" ++
    String.mk [Char.ofNat 34] ++ " set to NULL"

/-- The `switch (column.columnType)` of `writeTuple` (stage.cpp lines
237-275): the SQL literal appended for one present, non-null value, plus the
warnings emitted while encoding it. -/
def encodeColumnValue (dbt : dbtype) (tableName id : String)
    (column : ColumnSchema) (jsonValue : Json) : String × List String :=
  match column.columnType with
  | .bigint => (toString (getInt jsonValue), [])
  | .boolean => ((if getBool jsonValue then "TRUE" else "FALSE"), [])
  | .numeric =>
      let d := getDouble jsonValue
      let s := cppToStringDouble d
      if d > 10000000000 then
        ("0", [numericOverflowWarning tableName column.columnName id d])
      else (s, [])
  | .id | .timestamptz | .varchar =>
      let s := dbt.encode_string_const (getString jsonValue)
      if s.length ≥ 65535 then
        ("NULL", [stringLengthWarning tableName column.columnName id])
      else (s, [])

/-- The per-column loop of `writeTuple` (stage.cpp lines 222-277): the "id"
column is skipped (already emitted), an absent or null member yields the NULL
literal, and other values go through the type switch; every column text is
followed by a comma. -/
def columnsText (dbt : dbtype) (table : TableSchema) (id : String)
    (doc : List (String × Json)) : String × List String :=
  table.columns.foldl (fun acc column =>
    if column.columnName == "id" then acc
    else
      match doc.lookup column.sourceColumnName with
      | none => (acc.1 ++ "NULL,", acc.2)
      | some jsonValue =>
        if isNullJ jsonValue then (acc.1 ++ "NULL,", acc.2)
        else
          let r := encodeColumnValue dbt table.tableName id column jsonValue
          (acc.1 ++ r.1 ++ ",", acc.2 ++ r.2)) ("", [])

/-- The raw-document ("data") column of `writeTuple` (stage.cpp lines
279-300): pretty-printed JSON; if the encoded literal exceeds 65,535
characters, retried compact; if still over the limit, NULL plus a warning. -/
def dataColumnText (dbt : dbtype) (tableName id : String) (doc : Json) :
    String × List String :=
  let data := dbt.encode_string_const (prettyPrint doc)
  if data.length > 65535 then
    let data2 := dbt.encode_string_const (writeJson doc)
    if data2.length > 65535 then
      ("NULL", [jsonSizeWarning tableName id])
    else (data2, [])
  else (data, [])

/-- The mutable state threaded through `writeTuple` by pointer. -/
structure InsertState where
  recordCount : Nat
  totalRecordCount : Nat
  insertBuffer : String
deriving Repr, DecidableEq

/-- Model of `writeTuple` (stage.cpp lines 205-311): appends one row tuple to the
insert buffer — comma separator when the statement already holds a tuple,
then `(`, the encoded id, the per-column literals, the raw-document value and
the fixed tenant marker `,1)` — and bumps both record counters.  Returns the
new state and the warnings emitted. -/
def writeTuple (dbt : dbtype) (table : TableSchema)
    (doc : List (String × Json)) (st : InsertState) : InsertState × List String :=
  let id := getString ((doc.lookup "id").getD .null)
  let cols := columnsText dbt table id doc
  let dataCol := dataColumnText dbt table.tableName id (.obj doc)
  ({ recordCount := st.recordCount + 1,
     totalRecordCount := st.totalRecordCount + 1,
     insertBuffer := st.insertBuffer ++ (if st.recordCount > 0 then "," else "")
       ++ "(" ++ dbt.encode_string_const id ++ "," ++ cols.1 ++ dataCol.1 ++ ",1)" },
   cols.2 ++ dataCol.2)

/-! ### Ordering of every object node (claim C10) -/

/-- Every object node, at any nesting depth, lists a member named "id" (when
present) first, and its remaining member names in strictly ascending
byte-wise order; arrays impose no constraint beyond their elements. -/
inductive EveryObjOrdered : Json → Prop where
  | null : EveryObjOrdered .null
  | boolean (b : Bool) : EveryObjOrdered (.boolean b)
  | intNum (i : Int) : EveryObjOrdered (.intNum i)
  | floatNum (q : ℚ) : EveryObjOrdered (.floatNum q)
  | str (s : String) : EveryObjOrdered (.str s)
  | arr {xs : List Json} : (∀ x ∈ xs, EveryObjOrdered x) →
      EveryObjOrdered (.arr xs)
  | obj {ms : List (String × Json)} :
      ("id" ∈ ms.map Prod.fst → ∃ rest, ms.map Prod.fst = "id" :: rest) →
      List.Chain' (· < ·) ((ms.map Prod.fst).filter (fun n => n != "id")) →
      (∀ m ∈ ms, EveryObjOrdered m.2) → EveryObjOrdered (.obj ms)

theorem filter_ne_id_eq_self {names : List String} (h : "id" ∉ names) :
    names.filter (fun n => n != "id") = names := by
  apply List.filter_eq_self.mpr
  intro a ha
  simp only [bne_iff_ne, ne_eq]
  exact fun heq => h (heq ▸ ha)

theorem everyObjOrdered_of_canonical {j : Json} (hc : Canonical j) :
    Wf j → EveryObjOrdered j := by
  induction hc with
  | null => intro _; exact EveryObjOrdered.null
  | boolean b => intro _; exact EveryObjOrdered.boolean b
  | intNum i => intro _; exact EveryObjOrdered.intNum i
  | floatNum q => intro _; exact EveryObjOrdered.floatNum q
  | str s => intro _; exact EveryObjOrdered.str s
  | @arr xs hxs ih =>
    intro hw
    cases hw with
    | arr hw => exact EveryObjOrdered.arr (fun x hx => ih x hx (hw x hx))
  | @obj ms hs hms ih =>
    intro hw
    cases hw with
    | obj hnd hw =>
      refine EveryObjOrdered.obj ?_ ?_ (fun m hm => ih m hm (hw m hm))
      · intro hid
        obtain ⟨v, rest, heq⟩ := sorted_head_id hs hid
        refine ⟨rest.map Prod.fst, ?_⟩
        rw [heq]
        simp
      · by_cases hid : "id" ∈ ms.map Prod.fst
        · obtain ⟨v, rest, heq⟩ := sorted_head_id hs hid
          subst heq
          rcases hs with - | ⟨hh, ht⟩
          simp only [List.map_cons, List.nodup_cons] at hnd
          simp only [List.map_cons, List.filter_cons]
          have hfid : (("id" : String) != "id") = false := by decide
          rw [hfid]
          simp only [Bool.false_eq_true, if_false]
          rw [filter_ne_id_eq_self hnd.1]
          exact sorted_names_strict ht hnd.2 hnd.1
        · rw [filter_ne_id_eq_self hid]
          exact sorted_names_strict hs hnd hid

/-! ### Claim theorems for the canonicalizer and the statistics collector -/

/-- C5.  For every record processed by the canonicalizer — a top-level object
with the required "id" member and distinct member names — the member named
"id" serializes first among the top-level members, and all other top-level
members appear in strictly ascending lexicographic (byte-wise) order by
field name. -/
theorem C5_id_first_then_sorted (ms : List (String × Json)) (c : Bool)
    (p : String) (st : Stats)
    (hnd : (ms.map Prod.fst).Nodup) (hid : "id" ∈ ms.map Prod.fst) :
    ∃ v rest, (processJSONRecord c p 0 st (.obj ms)).1 = .obj (("id", v) :: rest) ∧
      List.Chain' (· < ·) (rest.map Prod.fst) ∧ "id" ∉ rest.map Prod.fst := by
  rw [processJSONRecord_fst]
  exact canonicalize_id_first hnd hid

/-- Witness for C5 on the record `\x7b"name":"Jane","id":"a1","age":30\x7d`. -/
theorem C5_id_first_then_sorted_witness :
    ∃ v rest,
      (processJSONRecord true "" 0 []
          (.obj [("name", .str "Jane"), ("id", .str "a1"), ("age", .intNum 30)])).1
        = .obj (("id", v) :: rest) ∧
      List.Chain' (· < ·) (rest.map Prod.fst) ∧ "id" ∉ rest.map Prod.fst :=
  C5_id_first_then_sorted [("name", .str "Jane"), ("id", .str "a1"), ("age", .intNum 30)]
    true "" [] (by decide) (by decide)

/-- C6.  Canonicalization is idempotent on well-formed records: a second
canonicalization changes neither the tree nor any serialized byte sequence
(compact or pretty) derived from it. -/
theorem C6_canonicalize_idempotent (j : Json) (h : Wf j) :
    canonicalize (canonicalize j) = canonicalize j ∧
    writeJson (canonicalize (canonicalize j)) = writeJson (canonicalize j) ∧
    prettyPrint (canonicalize (canonicalize j)) = prettyPrint (canonicalize j) := by
  have hidem := canonicalize_idem h
  exact ⟨hidem, by rw [hidem], by rw [hidem]⟩

/-- Witness for C6 on the record `\x7b"b":1,"id":"x","a":\x7b"d":2,"c":3\x7d\x7d`. -/
theorem C6_canonicalize_idempotent_witness :
    canonicalize (canonicalize
        (.obj [("b", .intNum 1), ("id", .str "x"),
          ("a", .obj [("d", .intNum 2), ("c", .intNum 3)])]))
      = canonicalize
        (.obj [("b", .intNum 1), ("id", .str "x"),
          ("a", .obj [("d", .intNum 2), ("c", .intNum 3)])]) :=
  (C6_canonicalize_idempotent
    (.obj [("b", .intNum 1), ("id", .str "x"),
      ("a", .obj [("d", .intNum 2), ("c", .intNum 3)])])
    (by
      refine Wf.obj (by decide) ?_
      intro m hm
      simp only [List.mem_cons, List.not_mem_nil, or_false] at hm
      rcases hm with rfl | rfl | rfl
      · exact Wf.intNum 1
      · exact Wf.str "x"
      · refine Wf.obj (by decide) ?_
        intro m' hm'
        simp only [List.mem_cons, List.not_mem_nil, or_false] at hm'
        rcases hm' with rfl | rfl
        · exact Wf.intNum 2
        · exact Wf.intNum 3)).1

/-- C10.  `processJSONRecord` reorders object members at every nesting
depth, in both pass 1 (`collectStats = true`) and pass 2: the returned tree
is the canonicalization of the input, in which every object node (nested or
not) has any member named "id" first and its remaining member names in
ascending byte-wise order, while array nodes keep their elements in order,
each canonicalized recursively. -/
theorem C10_reorder_every_depth (j : Json) (h : Wf j) (pass : Nat)
    (p : String) (st : Stats) :
    (processJSONRecord (pass == 1) p 0 st j).1 = canonicalize j ∧
    EveryObjOrdered (canonicalize j) ∧
    (∀ xs, canonicalize (.arr xs) = .arr (xs.map canonicalize)) := by
  refine ⟨processJSONRecord_fst j _ p 0 st, ?_, ?_⟩
  · exact everyObjOrdered_of_canonical (canonical_canonicalize h) (wf_canonicalize h)
  · intro xs
    rw [canonicalize, canonElems_eq_map]

/-- Witness for C10 on a two-level record, in pass 2. -/
theorem C10_reorder_every_depth_witness :
    (processJSONRecord (2 == 1) "" 0 []
        (.obj [("z", .obj [("b", .intNum 1), ("a", .intNum 2)]), ("id", .str "r")])).1
      = canonicalize
          (.obj [("z", .obj [("b", .intNum 1), ("a", .intNum 2)]), ("id", .str "r")]) ∧
    EveryObjOrdered (canonicalize
      (.obj [("z", .obj [("b", .intNum 1), ("a", .intNum 2)]), ("id", .str "r")])) := by
  have h := C10_reorder_every_depth
    (.obj [("z", .obj [("b", .intNum 1), ("a", .intNum 2)]), ("id", .str "r")])
    (by
      refine Wf.obj (by decide) ?_
      intro m hm
      simp only [List.mem_cons, List.not_mem_nil, or_false] at hm
      rcases hm with rfl | rfl
      · refine Wf.obj (by decide) ?_
        intro m' hm'
        simp only [List.mem_cons, List.not_mem_nil, or_false] at hm'
        rcases hm' with rfl | rfl
        · exact Wf.intNum 1
        · exact Wf.intNum 2
      · exact Wf.str "r")
    2 "" []
  exact ⟨h.1, h.2.1⟩

/-- C7.  For statistics accumulated over any finite stream of records (each a
JSON object with distinct member names) in pass 1, and any field path:
`integer + floating = number`, and `null + boolean + number + string` is at
most the number of records in which the field occurs. -/
theorem C7_counts_invariants (recs : List Json)
    (hrec : ∀ r ∈ recs, ∃ ms, r = Json.obj ms ∧ (ms.map Prod.fst).Nodup)
    (f : String) :
    (statsGet (passOneStats recs) f).integer + (statsGet (passOneStats recs) f).floating
        = (statsGet (passOneStats recs) f).number ∧
    (statsGet (passOneStats recs) f).null + (statsGet (passOneStats recs) f).boolean
        + (statsGet (passOneStats recs) f).number + (statsGet (passOneStats recs) f).string
      ≤ (recs.filter (recordHasField f)).length := by
  constructor
  · exact (passOneStats_ok recs).2 f
  · have h := passOne_fold_s4 recs hrec [] statsOK_nil f
    simp only [statsGet_nil] at h
    simpa [passOneStats, s4] using h

/-- Witness for C7 on a two-record stream sharing the field "n". -/
theorem C7_counts_invariants_witness :
    (statsGet (passOneStats
        [.obj [("id", .str "a"), ("n", .intNum 3)],
         .obj [("id", .str "b"), ("n", .null)]]) "n").integer +
      (statsGet (passOneStats
        [.obj [("id", .str "a"), ("n", .intNum 3)],
         .obj [("id", .str "b"), ("n", .null)]]) "n").floating
      = (statsGet (passOneStats
        [.obj [("id", .str "a"), ("n", .intNum 3)],
         .obj [("id", .str "b"), ("n", .null)]]) "n").number ∧
    (statsGet (passOneStats
        [.obj [("id", .str "a"), ("n", .intNum 3)],
         .obj [("id", .str "b"), ("n", .null)]]) "n").null +
      (statsGet (passOneStats
        [.obj [("id", .str "a"), ("n", .intNum 3)],
         .obj [("id", .str "b"), ("n", .null)]]) "n").boolean +
      (statsGet (passOneStats
        [.obj [("id", .str "a"), ("n", .intNum 3)],
         .obj [("id", .str "b"), ("n", .null)]]) "n").number +
      (statsGet (passOneStats
        [.obj [("id", .str "a"), ("n", .intNum 3)],
         .obj [("id", .str "b"), ("n", .null)]]) "n").string
      ≤ ([.obj [("id", .str "a"), ("n", .intNum 3)],
          .obj [("id", .str "b"), ("n", .null)]].filter (recordHasField "n")).length :=
  C7_counts_invariants
    [.obj [("id", .str "a"), ("n", .intNum 3)],
     .obj [("id", .str "b"), ("n", .null)]]
    (by
      intro r hr
      simp only [List.mem_cons, List.not_mem_nil, or_false] at hr
      rcases hr with rfl | rfl
      · exact ⟨_, rfl, by decide⟩
      · exact ⟨_, rfl, by decide⟩)
    "n"

/-! ### Claim theorems for the SQL value encoder -/

/-- C2.  For identifier, timestamp and variable-length string columns, an
escaped literal whose length reaches 65,535 characters is replaced by the
NULL literal with a warning; a shorter literal is emitted unchanged; and the
row is still appended to the insert buffer either way (the record counter
always advances). -/
theorem C2_string_length_limit (dbt : dbtype) (tableName id : String)
    (column : ColumnSchema) (v : Json)
    (hty : column.columnType = .id ∨ column.columnType = .timestamptz ∨
      column.columnType = .varchar) :
    (65535 ≤ (dbt.encode_string_const (getString v)).length →
      encodeColumnValue dbt tableName id column v =
        ("NULL", [stringLengthWarning tableName column.columnName id])) ∧
    ((dbt.encode_string_const (getString v)).length < 65535 →
      encodeColumnValue dbt tableName id column v =
        (dbt.encode_string_const (getString v), [])) ∧
    (∀ (table : TableSchema) (doc : List (String × Json)) (st : InsertState),
      (writeTuple dbt table doc st).1.recordCount = st.recordCount + 1) := by
  refine ⟨?_, ?_, ?_⟩
  · intro hlen
    rcases hty with h | h | h <;>
      (simp only [encodeColumnValue, h]; rw [if_pos hlen])
  · intro hlen
    rcases hty with h | h | h <;>
      (simp only [encodeColumnValue, h]; rw [if_neg (by omega)])
  · intro table doc st
    simp [writeTuple]

/-- A 65,535-character string literal, for the C2 witness. -/
def longLiteral : String := String.mk (List.replicate 65535 (Char.ofNat 97))

/-- A dialect whose string encoder returns a fixed 65,535-character literal,
exercising the boundary of the length check. -/
def constDialect : dbtype where
  encode_string_const := fun _ => longLiteral
  json_type := "JSON"
  redshift_keys := fun _ _ => ""
  type_string := "PostgreSQL"

theorem C2_string_length_limit_witness :
    encodeColumnValue constDialect "t" "r" ⟨.varchar, "c", "c"⟩ (.str "v") =
      ("NULL", [stringLengthWarning "t" "c" "r"]) ∧
    encodeColumnValue postgres "t" "r" ⟨.varchar, "c", "c"⟩ (.str "abc") =
      (postgres.encode_string_const "abc", []) ∧
    (writeTuple postgres ⟨"t", "sp", "m", [], false⟩ [] ⟨0, 0, "X"⟩).1.recordCount
      = 0 + 1 := by
  refine ⟨?_, ?_, ?_⟩
  · refine (C2_string_length_limit constDialect "t" "r" ⟨.varchar, "c", "c"⟩ (.str "v")
      (Or.inr (Or.inr rfl))).1 ?_
    show 65535 ≤ longLiteral.length
    have h1 : longLiteral.length = (List.replicate 65535 (Char.ofNat 97)).length := rfl
    rw [h1, List.length_replicate]
  · exact (C2_string_length_limit postgres "t" "r" ⟨.varchar, "c", "c"⟩ (.str "abc")
      (Or.inr (Or.inr rfl))).2.1 (by decide)
  · exact (C2_string_length_limit postgres "t" "r" ⟨.varchar, "c", "c"⟩ (.str "abc")
      (Or.inr (Or.inr rfl))).2.2 ⟨"t", "sp", "m", [], false⟩ [] ⟨0, 0, "X"⟩

/-- C3 counterexample: the code compares `d > 10000000000.0` with the signed
value, not the magnitude.  A numeric value of magnitude 2·10^10 but negative
sign is emitted as its decimal text with no warning, not replaced by 0. -/
theorem C3_counterexample_negative_magnitude :
    (10000000000 : ℚ) < |getDouble (.floatNum (-20000000000))| ∧
    (encodeColumnValue postgres "t" "r" ⟨.numeric, "c", "c"⟩
        (.floatNum (-20000000000))).2 = [] ∧
    (encodeColumnValue postgres "t" "r" ⟨.numeric, "c", "c"⟩
        (.floatNum (-20000000000))).1 =
      cppToStringDouble (-20000000000) ∧
    cppToStringDouble (-20000000000) ≠ "0" := by
  refine ⟨by norm_num [getDouble], ?_, ?_, ?_⟩
  · simp only [encodeColumnValue, getDouble]
    rw [if_neg (by norm_num)]
  · simp only [encodeColumnValue, getDouble]
    rw [if_neg (by norm_num)]
  · decide

/-- C3 amended: the overflow fallback triggers exactly when the signed value
exceeds 10,000,000,000 (a negative value never triggers it regardless of
magnitude): then a warning naming table, column, record id and value is
recorded and the literal 0 substituted; otherwise — including exactly
10,000,000,000 — the decimal text form of the double value is emitted with
no warning. -/
theorem C3_numeric_overflow (dbt : dbtype) (tableName id : String)
    (column : ColumnSchema) (v : Json) (hty : column.columnType = .numeric) :
    (getDouble v > 10000000000 →
      encodeColumnValue dbt tableName id column v =
        ("0", [numericOverflowWarning tableName column.columnName id (getDouble v)])) ∧
    (getDouble v ≤ 10000000000 →
      encodeColumnValue dbt tableName id column v =
        (cppToStringDouble (getDouble v), [])) := by
  constructor
  · intro hgt
    simp only [encodeColumnValue, hty]
    rw [if_pos hgt]
  · intro hle
    simp only [encodeColumnValue, hty]
    rw [if_neg (not_lt.mpr hle)]

/-- Witness for C3 at the boundary: 10^10 + 1/100 triggers the fallback,
exactly 10^10 does not. -/
theorem C3_numeric_overflow_witness :
    encodeColumnValue postgres "t" "r" ⟨.numeric, "c", "c"⟩
        (.floatNum (10000000000 + 1 / 100)) =
      ("0", [numericOverflowWarning "t" "c" "r"
        (getDouble (.floatNum (10000000000 + 1 / 100)))]) ∧
    encodeColumnValue postgres "t" "r" ⟨.numeric, "c", "c"⟩
        (.floatNum 10000000000) =
      (cppToStringDouble (getDouble (.floatNum 10000000000)), []) := by
  constructor
  · exact (C3_numeric_overflow postgres "t" "r" ⟨.numeric, "c", "c"⟩
      (.floatNum (10000000000 + 1 / 100)) rfl).1 (by norm_num [getDouble])
  · exact (C3_numeric_overflow postgres "t" "r" ⟨.numeric, "c", "c"⟩
      (.floatNum 10000000000) rfl).2 (by norm_num [getDouble])

/-- C9 (code evaluated at the failing input): a big-integer column value of
5,000,000,000 — stored by the parser with the 64-bit integer flag — is
emitted via `GetInt()` as the 32-bit truncation "705032704", not as the
integer text form "5000000000" (and a debug build aborts on the failed
`kIntFlag` assertion). -/
theorem C9_bigint_getint_truncates :
    encodeColumnValue postgres "t" "r" ⟨.bigint, "c", "c"⟩ (.intNum 5000000000) =
      ("705032704", []) ∧
    toString (5000000000 : Int) ≠ "705032704" := by
  constructor
  · simp only [encodeColumnValue, getInt, toInt32]
    norm_num
    decide
  · decide

/-- C8.  The raw-document column: the pretty-printed serialization is stored
when its escaped literal is within 65,535 characters; above that the compact
serialization is retried; if that too exceeds the limit, NULL is stored for
the data column with a warning — and in every case the row itself is still
appended (the record counter always advances). -/
theorem C8_data_column_fallback (dbt : dbtype) (tableName id : String)
    (doc : Json) :
    ((dbt.encode_string_const (prettyPrint doc)).length ≤ 65535 →
      dataColumnText dbt tableName id doc =
        (dbt.encode_string_const (prettyPrint doc), [])) ∧
    ((dbt.encode_string_const (prettyPrint doc)).length > 65535 →
      (dbt.encode_string_const (writeJson doc)).length ≤ 65535 →
      dataColumnText dbt tableName id doc =
        (dbt.encode_string_const (writeJson doc), [])) ∧
    ((dbt.encode_string_const (prettyPrint doc)).length > 65535 →
      (dbt.encode_string_const (writeJson doc)).length > 65535 →
      dataColumnText dbt tableName id doc =
        ("NULL", [jsonSizeWarning tableName id])) ∧
    (∀ (table : TableSchema) (docm : List (String × Json)) (st : InsertState),
      (writeTuple dbt table docm st).1.recordCount = st.recordCount + 1) := by
  refine ⟨?_, ?_, ?_, ?_⟩
  · intro h1
    simp only [dataColumnText]
    rw [if_neg (by omega)]
  · intro h1 h2
    simp only [dataColumnText]
    rw [if_pos h1, if_neg (by omega)]
  · intro h1 h2
    simp only [dataColumnText]
    rw [if_pos h1, if_pos h2]
  · intro table docm st
    simp [writeTuple]

theorem C8_data_column_fallback_witness :
    dataColumnText postgres "t" "r" .null =
      (postgres.encode_string_const (prettyPrint .null), []) ∧
    (writeTuple postgres ⟨"t", "sp", "m", [], false⟩ [] ⟨0, 0, "X"⟩).1.recordCount
      = 0 + 1 := by
  constructor
  · refine (C8_data_column_fallback postgres "t" "r" .null).1 ?_
    rw [show prettyPrint Json.null = "null" by simp [prettyPrint, prettyJson]]
    decide
  · exact (C8_data_column_fallback postgres "t" "r" .null).2.2.2
      ⟨"t", "sp", "m", [], false⟩ [] ⟨0, 0, "X"⟩

/-! ### The batch insert writer (pass 2 page processing) -/

/-- Modelled from the spec: `loadingTableName` (names.cpp, not under src/)
derives the staging-area table name from the table name by a fixed naming
scheme; no claim depends on the scheme, only on the resulting prefix
length. -/
def loadingTableName (table : String) : String := table ++ "_loading"

/-- Model of `beginInserts` (stage.cpp lines 189-194): start a new INSERT statement
for the loading table. -/
def beginInserts (table : String) : String :=
  "INSERT INTO " ++ loadingTableName table ++ " VALUES "

/-- The state of the pass-2 load of one page array: the `JSONHandler`
counters and insert buffer, plus the log of SQL statements executed through
`conn->exec` and the warnings written. -/
structure PageState where
  recordCount : Nat
  totalRecordCount : Nat
  insertBuffer : String
  executed : List String
  warnings : List String
deriving Repr

/-- The text `writeTuple` appends to the insert buffer for one record. -/
def tupleText (dbt : dbtype) (table : TableSchema) (doc : List (String × Json))
    (withComma : Bool) : String :=
  (if withComma then "," else "") ++ "(" ++
    dbt.encode_string_const (getString ((doc.lookup "id").getD .null)) ++ "," ++
    (columnsText dbt table (getString ((doc.lookup "id").getD .null)) doc).1 ++
    (dataColumnText dbt table.tableName (getString ((doc.lookup "id").getD .null))
      (.obj doc)).1 ++ ",1)"

theorem writeTuple_buffer (dbt : dbtype) (table : TableSchema)
    (doc : List (String × Json)) (st : InsertState) :
    (writeTuple dbt table doc st).1.insertBuffer =
      st.insertBuffer ++ tupleText dbt table doc (st.recordCount > 0) := by
  simp only [writeTuple, tupleText]
  by_cases h : st.recordCount > 0 <;> simp [h, String.append_assoc]

theorem writeTuple_recordCount (dbt : dbtype) (table : TableSchema)
    (doc : List (String × Json)) (st : InsertState) :
    (writeTuple dbt table doc st).1.recordCount = st.recordCount + 1 := rfl

/-- The pass-2 record handling of `JSONHandler::EndObject` (stage.cpp lines
313-361): the parsed record is canonicalized by `processJSONRecord`
(statistics are not collected in pass 2, and the map is left untouched);
then, if the insert buffer already exceeds 16,500,000 characters, the
current statement is terminated (`";\n"` appended), executed and cleared,
a fresh statement is begun and the per-statement record count reset — all
before `writeTuple` appends the new tuple. -/
def endObjectPass2 (dbt : dbtype) (table : TableSchema)
    (doc : List (String × Json)) (st : PageState) : PageState :=
  let docProcessed : List (String × Json) :=
    match (processJSONRecord false "" 0 [] (.obj doc)).1 with
    | .obj ms => ms
    | _ => []
  let st1 :=
    if st.insertBuffer.length > 16500000 then
      { st with
        executed := st.executed ++ [st.insertBuffer ++ ";\n"]
        insertBuffer := beginInserts table.tableName
        recordCount := 0 }
    else st
  let r := writeTuple dbt table docProcessed
    ⟨st1.recordCount, st1.totalRecordCount, st1.insertBuffer⟩
  { recordCount := r.1.recordCount, totalRecordCount := r.1.totalRecordCount,
    insertBuffer := r.1.insertBuffer, executed := st1.executed,
    warnings := st1.warnings ++ r.2 }

/-- The pass-2 processing of one page array (stage.cpp lines 363-390):
`StartArray` at the top level begins an INSERT statement; every record object
is handled by `EndObject`; `EndArray` at the top level terminates and
executes the pending statement — if and only if at least one tuple was
written since the last flush. -/
def stagePagePass2 (dbt : dbtype) (table : TableSchema)
    (docs : List (List (String × Json))) : PageState :=
  let st0 : PageState := ⟨0, 0, beginInserts table.tableName, [], []⟩
  let st1 := docs.foldl (fun st doc => endObjectPass2 dbt table doc st) st0
  if st1.recordCount > 0 then
    { st1 with
      executed := st1.executed ++ [st1.insertBuffer ++ ";\n"]
      insertBuffer := "" }
  else st1

theorem endObjectPass2_doc (doc : List (String × Json)) :
    (match (processJSONRecord false "" 0 [] (.obj doc)).1 with
      | Json.obj ms => ms
      | _ => ([] : List (String × Json))) = canonMembers (sortMembers doc) := by
  rw [processJSONRecord_fst, canonicalize]

/-- The invariant maintained while loading one page: when the statement is
empty the buffer is exactly the INSERT prefix; otherwise the buffer is a
string of at most 16,500,000 characters followed by the single most recently
appended tuple; and every executed statement has that same shape plus the
terminating `";\n"`. -/
def PageInv (dbt : dbtype) (table : TableSchema)
    (docs : List (List (String × Json))) (st : PageState) : Prop :=
  (st.recordCount = 0 → st.insertBuffer = beginInserts table.tableName) ∧
  (0 < st.recordCount → ∃ b doc wc, doc ∈ docs ∧ b.length ≤ 16500000 ∧
      st.insertBuffer = b ++ tupleText dbt table (canonMembers (sortMembers doc)) wc) ∧
  (∀ s ∈ st.executed, ∃ b doc wc, doc ∈ docs ∧ b.length ≤ 16500000 ∧
      s = b ++ tupleText dbt table (canonMembers (sortMembers doc)) wc ++ ";\n")

theorem pageInv_step {dbt : dbtype} {table : TableSchema}
    {docs : List (List (String × Json))} {st : PageState}
    {doc : List (String × Json)}
    (hpre : (beginInserts table.tableName).length ≤ 16500000)
    (hInv : PageInv dbt table docs st) (hdoc : doc ∈ docs) :
    PageInv dbt table docs (endObjectPass2 dbt table doc st) := by
  obtain ⟨h0, hbuf, hexec⟩ := hInv
  simp only [endObjectPass2, endObjectPass2_doc]
  by_cases hflush : st.insertBuffer.length > 16500000
  · rw [if_pos hflush]
    have hrc : 0 < st.recordCount := by
      rcases Nat.eq_zero_or_pos st.recordCount with h | h
      · rw [h0 h] at hflush; omega
      · exact h
    obtain ⟨b, d0, wc, hd0, hble, hbeq⟩ := hbuf hrc
    refine ⟨?_, ?_, ?_⟩
    · intro h
      simp [writeTuple] at h
    · intro h
      refine ⟨beginInserts table.tableName, doc, false, hdoc, hpre, ?_⟩
      simp only [writeTuple_buffer]
      norm_num
    · intro s hs
      simp only [List.mem_append, List.mem_singleton] at hs
      rcases hs with hs | hs
      · exact hexec s hs
      · exact ⟨b, d0, wc, hd0, hble, by rw [hs, hbeq]⟩
  · rw [if_neg hflush]
    refine ⟨?_, ?_, ?_⟩
    · intro h
      simp [writeTuple] at h
    · intro h
      refine ⟨st.insertBuffer, doc, st.recordCount > 0, hdoc, by omega, ?_⟩
      simp only [writeTuple_buffer]
    · exact hexec

theorem pageInv_fold {dbt : dbtype} {table : TableSchema}
    {docs : List (List (String × Json))}
    (hpre : (beginInserts table.tableName).length ≤ 16500000)
    (l : List (List (String × Json))) (hl : ∀ d ∈ l, d ∈ docs) :
    ∀ st, PageInv dbt table docs st →
      PageInv dbt table docs (l.foldl (fun st doc => endObjectPass2 dbt table doc st) st) := by
  induction l with
  | nil => intro st h; simpa using h
  | cons d rest ih =>
    intro st h
    simp only [List.foldl_cons]
    exact ih (fun d' hd => hl d' (List.mem_cons_of_mem _ hd)) _
      (pageInv_step hpre h (hl d (List.mem_cons_self d rest)))

theorem endObjectPass2_recordCount (dbt : dbtype) (table : TableSchema)
    (doc : List (String × Json)) (st : PageState) :
    0 < (endObjectPass2 dbt table doc st).recordCount := by
  simp [endObjectPass2, writeTuple]

theorem foldl_endObject_recordCount (dbt : dbtype) (table : TableSchema)
    (l : List (List (String × Json))) (hne : l ≠ []) (st : PageState) :
    0 < (l.foldl (fun st doc => endObjectPass2 dbt table doc st) st).recordCount := by
  induction l generalizing st with
  | nil => exact absurd rfl hne
  | cons d rest ih =>
    simp only [List.foldl_cons]
    rcases rest with - | ⟨d2, rest2⟩
    · simpa using endObjectPass2_recordCount dbt table d st
    · exact ih (by simp) _

theorem endObjectPass2_executed_le (dbt : dbtype) (table : TableSchema)
    (doc : List (String × Json)) (st : PageState) :
    st.executed.length ≤ (endObjectPass2 dbt table doc st).executed.length := by
  simp only [endObjectPass2]
  split <;> simp

theorem foldl_endObject_executed_le (dbt : dbtype) (table : TableSchema)
    (l : List (List (String × Json))) (st : PageState) :
    st.executed.length ≤
      (l.foldl (fun st doc => endObjectPass2 dbt table doc st) st).executed.length := by
  induction l generalizing st with
  | nil => simp
  | cons d rest ih =>
    simp only [List.foldl_cons]
    exact le_trans (endObjectPass2_executed_le dbt table d st) (ih _)

theorem endObjectPass2_executed_flush (dbt : dbtype) (table : TableSchema)
    (doc : List (String × Json)) (st : PageState)
    (h : st.insertBuffer.length > 16500000) :
    (endObjectPass2 dbt table doc st).executed =
      st.executed ++ [st.insertBuffer ++ ";\n"] := by
  simp [endObjectPass2, h]

theorem foldl_endObject_recordCount_pos (dbt : dbtype) (table : TableSchema)
    (l : List (List (String × Json))) (st : PageState) (h : 0 < st.recordCount) :
    0 < (l.foldl (fun st doc => endObjectPass2 dbt table doc st) st).recordCount := by
  induction l generalizing st with
  | nil => simpa using h
  | cons d rest ih =>
    simp only [List.foldl_cons]
    exact ih _ (endObjectPass2_recordCount dbt table d st)

/-- C4.  Batch flushing during pass 2: when the accumulated insert buffer
exceeds 16,500,000 characters the current statement is executed and a new
one begun before the next tuple is appended, so every executed statement is
a string of at most 16,500,000 characters extended by the single tuple that
caused the crossing (plus the terminator); at the end of a page array a
final statement is executed exactly when at least one tuple is pending, even
below the threshold; a page array with zero records executes no statement;
and a buffer crossing the threshold mid-sequence forces at least two
executed statements. -/
theorem C4_batch_flushing (dbt : dbtype) (table : TableSchema)
    (docs : List (List (String × Json)))
    (hpre : (beginInserts table.tableName).length ≤ 16500000) :
    (docs = [] → (stagePagePass2 dbt table docs).executed = []) ∧
    (docs ≠ [] →
      (stagePagePass2 dbt table docs).executed =
        (docs.foldl (fun st doc => endObjectPass2 dbt table doc st)
            ⟨0, 0, beginInserts table.tableName, [], []⟩).executed ++
          [(docs.foldl (fun st doc => endObjectPass2 dbt table doc st)
            ⟨0, 0, beginInserts table.tableName, [], []⟩).insertBuffer ++ ";\n"]) ∧
    (∀ s ∈ (stagePagePass2 dbt table docs).executed,
      ∃ b doc wc, doc ∈ docs ∧ b.length ≤ 16500000 ∧
        s = b ++ tupleText dbt table (canonMembers (sortMembers doc)) wc ++ ";\n") ∧
    (∀ l1 l2, docs = l1 ++ l2 → l2 ≠ [] →
      16500000 < ((l1.foldl (fun st doc => endObjectPass2 dbt table doc st)
          ⟨0, 0, beginInserts table.tableName, [], []⟩).insertBuffer).length →
      2 ≤ (stagePagePass2 dbt table docs).executed.length) := by
  have hInv0 : PageInv dbt table docs ⟨0, 0, beginInserts table.tableName, [], []⟩ := by
    refine ⟨fun _ => rfl, fun h => absurd h (by simp), fun s hs => absurd hs (by simp)⟩
  have hInvF := pageInv_fold hpre docs (fun d hd => hd) _ hInv0
  refine ⟨?_, ?_, ?_, ?_⟩
  · rintro rfl
    simp [stagePagePass2]
  · intro hne
    have hrc := foldl_endObject_recordCount dbt table docs hne
      ⟨0, 0, beginInserts table.tableName, [], []⟩
    simp only [stagePagePass2]
    rw [if_pos hrc]
  · intro s hs
    simp only [stagePagePass2] at hs
    split at hs
    · next hrc =>
      simp only [List.mem_append, List.mem_singleton] at hs
      rcases hs with hs | hs
      · exact hInvF.2.2 s hs
      · obtain ⟨b, d0, wc, hd0, hble, hbeq⟩ := hInvF.2.1 hrc
        exact ⟨b, d0, wc, hd0, hble, by rw [hs, hbeq]⟩
    · exact hInvF.2.2 s hs
  · intro l1 l2 hsplit hne hover
    subst hsplit
    rcases l2 with - | ⟨d, rest⟩
    · exact absurd rfl hne
    have hfold : (l1 ++ d :: rest).foldl (fun st doc => endObjectPass2 dbt table doc st)
          (⟨0, 0, beginInserts table.tableName, [], []⟩ : PageState)
        = rest.foldl (fun st doc => endObjectPass2 dbt table doc st)
            (endObjectPass2 dbt table d
              (l1.foldl (fun st doc => endObjectPass2 dbt table doc st)
                ⟨0, 0, beginInserts table.tableName, [], []⟩)) := by
      rw [List.foldl_append, List.foldl_cons]
    have hrc : 0 < ((l1 ++ d :: rest).foldl (fun st doc => endObjectPass2 dbt table doc st)
        (⟨0, 0, beginInserts table.tableName, [], []⟩ : PageState)).recordCount := by
      rw [hfold]
      exact foldl_endObject_recordCount_pos dbt table rest _
        (endObjectPass2_recordCount dbt table d _)
    have hexec1 : 1 ≤ ((l1 ++ d :: rest).foldl (fun st doc => endObjectPass2 dbt table doc st)
        (⟨0, 0, beginInserts table.tableName, [], []⟩ : PageState)).executed.length := by
      rw [hfold]
      refine le_trans ?_ (foldl_endObject_executed_le dbt table rest _)
      rw [endObjectPass2_executed_flush dbt table d _ hover]
      simp
    simp only [stagePagePass2]
    rw [if_pos hrc]
    simp only [List.length_append, List.length_singleton]
    omega

/-! ### The stage orchestrator (`stageTable`) -/

/-- The options consulted by the staging core (`ldp_options`, options.h; only
these three fields are read by stage.cpp). -/
structure ldp_options where
  load_from_dir : String
  ldpconfig_user : String
  ldp_user : String

/-- The load directory contents seen by `stageTable`: the page-count marker
file (`none` = absent, `some none` = present but unparseable, `some (some n)`
= declares `n` pages), the page files (arrays of record objects) and the
optional fixed-name test file. -/
structure LoadDir where
  countFile : Option (Option Nat)
  pages : Nat → List (List (String × Json))
  testFile : Option (List (List (String × Json)))

/-- Modelled from the spec: the Schema Inferencer and naming collaborators
whose sources (schema.cpp, camelcase.cpp) are not under src/:
`selectColumnType` is a pure, deterministic function of the field statistics
(`none` = inference failure, which fails the table), `decodeCamelCase` the
column-name transformation, `columnTypeToString` the DDL type spelling. -/
structure SchemaDeps where
  selectColumnType : String → String → String → Counts → Option ColumnType
  decodeCamelCase : String → String
  columnTypeToString : ColumnType → String

/-- Model of `readPageCount` (stage.cpp lines 512-528): a missing count file logs a
warning and yields page count 0 (not fatal); an unreadable count throws. -/
def readPageCount (countFile : Option (Option Nat)) (filename : String) :
    Except String (Nat × List String) :=
  match countFile with
  | none => .ok (0, ["File not found: " ++ filename])
  | some none => .error ("unable to read page count from " ++ filename)
  | some (some n) => .ok (n, [])

/-- A double-quote character for the generated DDL. -/
def dq : String := String.mk [Char.ofNat 34]

/-- Model of `createLoadingTable` (stage.cpp lines 587-645): the CREATE TABLE
statement (id first, inferred columns, data and tenant columns, dialect
keys), the COMMENT (skipped for the exempt module "mod-agreements") and the
two GRANTs, in execution order. -/
def createLoadingTableSQL (deps : SchemaDeps) (opt : ldp_options)
    (table : TableSchema) (dbt : dbtype) : List String :=
  let loadingTable := loadingTableName table.tableName
  let rskeys := dbt.redshift_keys "id" "id"
  let create := "CREATE TABLE " ++ loadingTable ++ " (\n    id VARCHAR(36) NOT NULL,\n" ++
    (table.columns.foldl (fun acc column =>
      if column.columnName ≠ "id" then
        acc ++ "    " ++ dq ++ column.columnName ++ dq ++ " " ++
          deps.columnTypeToString column.columnType ++ ",\n"
      else acc) "") ++
    "    data " ++ dbt.json_type ++ ",\n    tenant_id SMALLINT NOT NULL\n)" ++
    rskeys ++ ";"
  let comment :=
    if table.moduleName ≠ "mod-agreements" then
      ["COMMENT ON TABLE " ++ loadingTable ++ "\n    IS " ++ sq ++ table.sourcePath ++
        " in " ++ table.moduleName ++ ": https://dev.folio.org/reference/api/#" ++
        table.moduleName ++ sq ++ ";"]
    else []
  [create] ++ comment ++
    ["GRANT SELECT ON " ++ loadingTable ++ "\n    TO " ++ opt.ldpconfig_user ++ ";",
     "GRANT SELECT ON " ++ loadingTable ++ "\n    TO " ++ opt.ldp_user ++ ";"]

/-- Model of `indexLoadingTable` (stage.cpp lines 550-585): with no inferred columns,
only the primary key; otherwise the primary key for "id" and, on PostgreSQL,
a single-column index for every non-id, non-data column. -/
def indexLoadingTableSQL (table : TableSchema) (dbt : dbtype) : List String :=
  let loadingTable := loadingTableName table.tableName
  if table.columns.length = 0 then
    ["ALTER TABLE " ++ loadingTable ++ "\n    ADD PRIMARY KEY (id);"]
  else
    table.columns.foldl (fun acc column =>
      if column.columnName = "id" then
        acc ++ ["ALTER TABLE " ++ loadingTable ++ "\n    ADD PRIMARY KEY (id);"]
      else if dbt.type_string = "PostgreSQL" ∧ column.columnName ≠ "data" then
        acc ++ ["CREATE INDEX ON\n    " ++ loadingTable ++ "\n    (" ++ dq ++
          column.columnName ++ dq ++ ");"]
      else acc) []

/-- Pass-1 processing of one page array: every record is parsed and handed to
`processJSONRecord` with statistics collection on; no SQL is produced. -/
def pass1Page (st : Stats) (docs : List (List (String × Json))) : Stats :=
  docs.foldl (fun st doc => (processJSONRecord true "" 0 st (.obj doc)).2) st

/-- The pass-1 column-building loop of `stageTable` (stage.cpp lines
716-735), iterating the statistics map in its key order: one `ColumnSchema`
per observed field, appended in order; a field the inferencer cannot resolve
fails the table (second component `false`). -/
def buildColumns (deps : SchemaDeps) (tableName sourcePath : String) :
    Stats → List ColumnSchema × Bool
  | [] => ([], true)
  | (field, counts) :: rest =>
    match deps.selectColumnType tableName sourcePath field counts with
    | none => ([], false)
    | some ty =>
      let r := buildColumns deps tableName sourcePath rest
      ({ columnType := ty, columnName := deps.decodeCamelCase field,
         sourceColumnName := field } :: r.1, r.2)

/-- The outcome of `stageTable`: the success flag it returns, the table (with
any columns appended during pass 1 — the `skip` flag is never touched here),
the SQL statements executed through the connection, in order, and the
warnings written to the log. -/
structure StageResult where
  success : Bool
  table : TableSchema
  executed : List String
  warnings : List String

/-- Model of `stageTable` (stage.cpp lines 647-744): read the page count (a missing
count file warns and yields 0); pass 1 parses every page (and the test file
when loading from a directory) collecting statistics, builds one column per
observed field (failing the table if inference fails) and creates the
loading table; pass 2 re-parses every page and the test file, streaming
insert batches; finally the loading table is indexed.  The `Except` error is
the `runtime_error` thrown on an unreadable count file. -/
def stageTable (deps : SchemaDeps) (opt : ldp_options) (table : TableSchema)
    (dbt : dbtype) (dir : LoadDir) (loadDir : String) :
    Except String StageResult :=
  match readPageCount dir.countFile
      (loadDir ++ "/" ++ table.tableName ++ "_count.txt") with
  | .error e => .error e
  | .ok r =>
    let pageCount := r.1
    let warns0 := r.2
    let pageList := (List.range pageCount).map dir.pages
    let statsPages := pageList.foldl (fun st docs => pass1Page st docs) []
    let statsAll :=
      if opt.load_from_dir ≠ "" then
        match dir.testFile with
        | some docs => pass1Page statsPages docs
        | none => statsPages
      else statsPages
    let bc := buildColumns deps table.tableName table.sourcePath statsAll
    let table1 := { table with columns := table.columns ++ bc.1 }
    if bc.2 = false then
      .ok { success := false, table := table1, executed := [], warnings := warns0 }
    else
      let ddl := createLoadingTableSQL deps opt table1 dbt
      let pageResults := pageList.map (fun docs => stagePagePass2 dbt table1 docs)
      let testResults :=
        if opt.load_from_dir ≠ "" then
          match dir.testFile with
          | some docs => [stagePagePass2 dbt table1 docs]
          | none => []
        else []
      let dml := (pageResults.map PageState.executed).flatten
      let testDml := (testResults.map PageState.executed).flatten
      let warns2 := (pageResults.map PageState.warnings).flatten ++
        (testResults.map PageState.warnings).flatten
      let idx := indexLoadingTableSQL table1 dbt
      .ok { success := true, table := table1,
            executed := ddl ++ dml ++ testDml ++ idx,
            warnings := warns0 ++ warns2 }

/-- Witness for C4: an empty page array executes no statement; a one-record
page executes exactly the single final flush. -/
theorem C4_batch_flushing_witness :
    (stagePagePass2 postgres ⟨"t", "sp", "m", [], false⟩ []).executed = [] ∧
    (stagePagePass2 postgres ⟨"t", "sp", "m", [], false⟩ [[("id", .str "a")]]).executed =
      ([[("id", .str "a")]].foldl
          (fun st doc => endObjectPass2 postgres ⟨"t", "sp", "m", [], false⟩ doc st)
          ⟨0, 0, beginInserts "t", [], []⟩).executed ++
        [([[("id", .str "a")]].foldl
          (fun st doc => endObjectPass2 postgres ⟨"t", "sp", "m", [], false⟩ doc st)
          ⟨0, 0, beginInserts "t", [], []⟩).insertBuffer ++ ";\n"] := by
  constructor
  · exact (C4_batch_flushing postgres ⟨"t", "sp", "m", [], false⟩ [] (by decide)).1 rfl
  · exact (C4_batch_flushing postgres ⟨"t", "sp", "m", [], false⟩ [[("id", .str "a")]]
      (by decide)).2.1 (by simp)

/-- C1 amended: when the page-count marker file is missing, `readPageCount`
logs a "File not found" warning and returns page count 0, and `stageTable`
proceeds: the table is NOT marked skipped (the skip flag is untouched and
staging reports success), and DDL IS executed — the loading table is created
(CREATE TABLE, the COMMENT unless the module is exempt, two GRANTs) and then
indexed (primary key) — while no INSERT statement is executed (there are no
pages, and no test file is read when not loading from a directory). -/
theorem C1_missing_count_file (deps : SchemaDeps) (opt : ldp_options)
    (table : TableSchema) (dbt : dbtype) (dir : LoadDir) (loadDir : String)
    (hcount : dir.countFile = none) (hdir : opt.load_from_dir = "") :
    stageTable deps opt table dbt dir loadDir = .ok
      { success := true
        table := table
        executed := createLoadingTableSQL deps opt table dbt ++
          indexLoadingTableSQL table dbt
        warnings := ["File not found: " ++ loadDir ++ "/" ++ table.tableName ++
          "_count.txt"] } := by
  simp [stageTable, readPageCount, hcount, hdir, buildColumns, String.append_assoc]

/-- Witness for C1 (amended) at a concrete table and load directory. -/
theorem C1_missing_count_file_witness :
    stageTable
        ⟨fun _ _ _ _ => some ColumnType.varchar, fun s => s, fun _ => "VARCHAR(65535)"⟩
        ⟨"", "cfg_user", "ldp_user"⟩ ⟨"t", "sp", "m", [], false⟩ postgres
        ⟨none, fun _ => [], none⟩ "/load" = .ok
      { success := true
        table := ⟨"t", "sp", "m", [], false⟩
        executed := createLoadingTableSQL
            ⟨fun _ _ _ _ => some ColumnType.varchar, fun s => s, fun _ => "VARCHAR(65535)"⟩
            ⟨"", "cfg_user", "ldp_user"⟩ ⟨"t", "sp", "m", [], false⟩ postgres ++
          indexLoadingTableSQL ⟨"t", "sp", "m", [], false⟩ postgres
        warnings := ["File not found: " ++ "/load" ++ "/" ++ "t" ++ "_count.txt"] } :=
  C1_missing_count_file
    ⟨fun _ _ _ _ => some ColumnType.varchar, fun s => s, fun _ => "VARCHAR(65535)"⟩
    ⟨"", "cfg_user", "ldp_user"⟩ ⟨"t", "sp", "m", [], false⟩ postgres
    ⟨none, fun _ => [], none⟩ "/load" rfl rfl

/-- C1 counterexample: with the count file missing, `stageTable` logs only
the warning, leaves the skip flag false, reports success, and executes a
non-empty list of DDL statements (CREATE TABLE, COMMENT, two GRANTs, ADD
PRIMARY KEY) — contradicting "marked skipped and no DDL executed". -/
theorem C1_counterexample_ddl_still_executed :
    stageTable
        ⟨fun _ _ _ _ => some ColumnType.varchar, fun s => s, fun _ => "VARCHAR(65535)"⟩
        ⟨"", "cfg_user", "ldp_user"⟩ ⟨"t", "sp", "m", [], false⟩ postgres
        ⟨none, fun _ => [], none⟩ "/load" = .ok
      { success := true
        table := ⟨"t", "sp", "m", [], false⟩
        executed := createLoadingTableSQL
            ⟨fun _ _ _ _ => some ColumnType.varchar, fun s => s, fun _ => "VARCHAR(65535)"⟩
            ⟨"", "cfg_user", "ldp_user"⟩ ⟨"t", "sp", "m", [], false⟩ postgres ++
          indexLoadingTableSQL ⟨"t", "sp", "m", [], false⟩ postgres
        warnings := ["File not found: " ++ "/load" ++ "/" ++ "t" ++ "_count.txt"] } ∧
    (createLoadingTableSQL
        ⟨fun _ _ _ _ => some ColumnType.varchar, fun s => s, fun _ => "VARCHAR(65535)"⟩
        ⟨"", "cfg_user", "ldp_user"⟩ ⟨"t", "sp", "m", [], false⟩ postgres ++
      indexLoadingTableSQL ⟨"t", "sp", "m", [], false⟩ postgres).length = 5 ∧
    (⟨"t", "sp", "m", [], false⟩ : TableSchema).skip = false := by
  refine ⟨?_, ?_, rfl⟩
  · simp [stageTable, readPageCount, buildColumns]
  · simp [createLoadingTableSQL, indexLoadingTableSQL]

end Ldp
